import Mathlib

/-!
Verification of the Prism campaign-asset pipeline against its specification.

The definitions below are a shallow embedding of the Python sources under
`src/`: the cache-key derivation and hero-resolution policy of
`asset_manager.py`, the three-phase orchestration of `pipeline.py`, the
execution-context accounting of `utils.py`, the aspect-ratio transform of
`aspect_ratio_processor.py`, the post-processing chain of
`post_processor.py`, the token-bucket rate limiter of `utils.py`, and the
pre-flight validation of `governance.py`.  Machine arithmetic is modelled
with `Nat` and explicit reduction modulo `2 ^ 32`; fallible operations
return `Except` or `Option`; the filesystem, the cache store and the
external services are explicit parameters.
-/

namespace Prism

/-! ## SHA-256, embedded from Python `hashlib.sha256` (FIPS 180-4)

`asset_manager.py` derives the hero cache key as
`hashlib.sha256(content.encode()).hexdigest()[:16]`.  The hash is embedded
here over byte lists, with 32-bit words represented as naturals reduced
modulo `2 ^ 32`. -/

/-- 32-bit truncation. -/
def mod32 (n : ℕ) : ℕ := n % 2 ^ 32

/-- Right rotation of a 32-bit word by `k` bits. -/
def rotr32 (k n : ℕ) : ℕ := mod32 ((n >>> k) ||| (n <<< (32 - k)))

/-- Bitwise complement of a 32-bit word. -/
def not32 (n : ℕ) : ℕ := n ^^^ (2 ^ 32 - 1)

/-- UTF-8 encoding of a character, as Python `str.encode()` produces it. -/
def utf8Char (c : Char) : List ℕ :=
  let n := c.toNat
  if n < 0x80 then [n]
  else if n < 0x800 then
    [0xC0 ||| (n >>> 6), 0x80 ||| (n &&& 0x3F)]
  else if n < 0x10000 then
    [0xE0 ||| (n >>> 12), 0x80 ||| ((n >>> 6) &&& 0x3F), 0x80 ||| (n &&& 0x3F)]
  else
    [0xF0 ||| (n >>> 18), 0x80 ||| ((n >>> 12) &&& 0x3F),
      0x80 ||| ((n >>> 6) &&& 0x3F), 0x80 ||| (n &&& 0x3F)]

/-- UTF-8 encoding of a string as a byte list. -/
def utf8 (s : String) : List ℕ := s.data.flatMap utf8Char

/-- The SHA-256 round constants. -/
def shaK : List ℕ :=
  [1116352408, 1899447441, 3049323471, 3921009573, 961987163,
   1508970993, 2453635748, 2870763221, 3624381080, 310598401,
   607225278, 1426881987, 1925078388, 2162078206, 2614888103,
   3248222580, 3835390401, 4022224774, 264347078, 604807628,
   770255983, 1249150122, 1555081692, 1996064986, 2554220882,
   2821834349, 2952996808, 3210313671, 3336571891, 3584528711,
   113926993, 338241895, 666307205, 773529912, 1294757372,
   1396182291, 1695183700, 1986661051, 2177026350, 2456956037,
   2730485921, 2820302411, 3259730800, 3345764771, 3516065817,
   3600352804, 4094571909, 275423344, 430227734, 506948616,
   659060556, 883997877, 958139571, 1322822218, 1537002063,
   1747873779, 1955562222, 2024104815, 2227730452, 2361852424,
   2428436474, 2756734187, 3204031479, 3329325298]

/-- Working state of the SHA-256 compression function. -/
structure Hash8 where
  a : ℕ
  b : ℕ
  c : ℕ
  d : ℕ
  e : ℕ
  f : ℕ
  g : ℕ
  h : ℕ

/-- The SHA-256 initial hash value. -/
def shaInit : Hash8 :=
  ⟨1779033703, 3144134277,
   1013904242, 2773480762,
   1359893119, 2600822924,
   528734635, 1541459225⟩

/-- Big-endian assembly of consecutive byte quadruples into 32-bit words. -/
def toWordsBE : List ℕ → List ℕ
  | b0 :: b1 :: b2 :: b3 :: rest =>
      (b0 * 2 ^ 24 + b1 * 2 ^ 16 + b2 * 2 ^ 8 + b3) :: toWordsBE rest
  | _ => []

/-- Big-endian decomposition of a 32-bit word into four bytes. -/
def wordToBytesBE (w : ℕ) : List ℕ :=
  [w >>> 24 % 256, w >>> 16 % 256, w >>> 8 % 256, w % 256]

/-- One extension step of the SHA-256 message schedule; the counter is
structural fuel, so the definition reduces in the kernel. -/
def extendSchedule : ℕ → List ℕ → List ℕ
  | 0, ws => ws
  | n + 1, ws =>
      let i := ws.length
      let w15 := ws.getD (i - 15) 0
      let w2 := ws.getD (i - 2) 0
      let s0 := rotr32 7 w15 ^^^ rotr32 18 w15 ^^^ (w15 >>> 3)
      let s1 := rotr32 17 w2 ^^^ rotr32 19 w2 ^^^ (w2 >>> 10)
      extendSchedule n (ws ++ [mod32 (ws.getD (i - 16) 0 + s0 + ws.getD (i - 7) 0 + s1)])

/-- One round of the SHA-256 compression function. -/
def shaRound (st : Hash8) (kw : ℕ × ℕ) : Hash8 :=
  let s1 := rotr32 6 st.e ^^^ rotr32 11 st.e ^^^ rotr32 25 st.e
  let ch := (st.e &&& st.f) ^^^ (not32 st.e &&& st.g)
  let temp1 := st.h + s1 + ch + kw.1 + kw.2
  let s0 := rotr32 2 st.a ^^^ rotr32 13 st.a ^^^ rotr32 22 st.a
  let maj := (st.a &&& st.b) ^^^ (st.a &&& st.c) ^^^ (st.b &&& st.c)
  let temp2 := s0 + maj
  ⟨mod32 (temp1 + temp2), st.a, st.b, st.c, mod32 (st.d + temp1), st.e, st.f, st.g⟩

/-- Compression of one 64-byte block into the running hash value. -/
def compressBlock (hv : Hash8) (block : List ℕ) : Hash8 :=
  let ws := extendSchedule 48 (toWordsBE block)
  let st := (shaK.zip ws).foldl shaRound hv
  ⟨mod32 (hv.a + st.a), mod32 (hv.b + st.b), mod32 (hv.c + st.c), mod32 (hv.d + st.d),
   mod32 (hv.e + st.e), mod32 (hv.f + st.f), mod32 (hv.g + st.g), mod32 (hv.h + st.h)⟩

/-- SHA-256 padding: a `0x80` byte, zeros to 56 modulo 64, and the bit
length as an eight-byte big-endian integer. -/
def shaPad (msg : List ℕ) : List ℕ :=
  let len := msg.length
  let zeros := (119 - len % 64) % 64
  let bitLen := 8 * len
  msg ++ 0x80 :: List.replicate zeros 0 ++
    [bitLen >>> 56 % 256, bitLen >>> 48 % 256, bitLen >>> 40 % 256, bitLen >>> 32 % 256,
     bitLen >>> 24 % 256, bitLen >>> 16 % 256, bitLen >>> 8 % 256, bitLen % 256]

/-- Fuelled split of a byte list into 64-byte blocks. -/
def chunks64 : ℕ → List ℕ → List (List ℕ)
  | 0, _ => []
  | _, [] => []
  | fuel + 1, l => l.take 64 :: chunks64 fuel (l.drop 64)

/-- SHA-256 digest of a byte list, as 32 bytes. -/
def sha256 (msg : List ℕ) : List ℕ :=
  let padded := shaPad msg
  let final := (chunks64 padded.length padded).foldl compressBlock shaInit
  [final.a, final.b, final.c, final.d, final.e, final.f, final.g, final.h].flatMap wordToBytesBE

/-- The lowercase hexadecimal digits. -/
def hexChars : List Char := "0123456789abcdef".data

/-- Two-character lowercase hexadecimal rendering of a byte. -/
def byteHex (n : ℕ) : List Char := [hexChars.getD (n / 16 % 16) '0', hexChars.getD (n % 16) '0']

/-- Hexadecimal digest characters, as Python `hexdigest()` produces them. -/
def sha256hexChars (msg : List ℕ) : List Char := (sha256 msg).flatMap byteHex

/-- Embedding of `AssetManager._compute_cache_key`: the three fields joined
with underscores, UTF-8 encoded, hashed with SHA-256, and the hex digest
truncated to its first 16 characters. -/
def computeCacheKey (productId campaignMessage region : String) : String :=
  ⟨(sha256hexChars (utf8 (productId ++ "_" ++ campaignMessage ++ "_" ++ region))).take 16⟩

/-! ## Data model, embedded from `models.py` -/

/-- Creative direction for asset generation (`CreativeBrief` in `models.py`). -/
structure CreativeBrief where
  setting : String
  mood : String
  keyVisualElements : List String

/-- Brand styling guidelines (`BrandStyle` in `models.py`). -/
structure BrandStyle where
  colorPalette : List String
  visualStyle : String
  photographyStyle : String

/-- Product information (`Product` in `models.py`). -/
structure Product where
  id : String
  name : String
  description : String
  category : String
  creativeBrief : CreativeBrief
  brandStyle : BrandStyle

/-- Complete campaign specification (`CampaignBrief` in `models.py`). -/
structure CampaignBrief where
  campaignId : String
  region : String
  targetAudience : String
  campaignMessage : String
  locales : List String
  products : List Product

/-- The cache key as `AssetManager.get_or_generate_hero` computes it, from
the product identifier and the campaign brief. -/
def cacheKeyFor (p : Product) (b : CampaignBrief) : String :=
  computeCacheKey p.id b.campaignMessage b.region

/-! ## Hero resolution, embedded from `asset_manager.py` and
`pipeline.py._get_or_generate_hero`

Images are abstract (`Img`); the input folder, the cache store and the
generation service are explicit parameters.  Each resolution records the
trace of observable operations it performs, so that statements such as
"the cache is never consulted" are about the code path actually taken. -/

/-- State of a file in the input folder: absent, present but unreadable
(`Image.open` raises and `_check_input_folder` falls through), or a
readable image. -/
inductive FileState (Img : Type) where
  | absent
  | corrupt
  | image (img : Img)
deriving DecidableEq

/-- The image a file yields, if any: `_check_input_folder` returns the
opened image and otherwise falls through. -/
def FileState.found {Img : Type} : FileState Img → Option Img
  | .image img => some img
  | _ => none

/-- Observable operations of one hero-resolution task. -/
inductive Ev where
  | acquire
  | computeKey
  | cacheLoad
  | cacheSave
  | generate
deriving DecidableEq

/-- External collaborators of `AssetManager`: the input folder contents,
the cache store and the generation service (whose failure, after the retry
policy is exhausted, is an error). -/
structure AMEnv (Img : Type) where
  inputFolder : String
  inputFS : String → FileState Img
  cacheLoad : String → Option Img
  generate : Product → CampaignBrief → Except String (Img × ℚ)

/-- The campaign-scoped user-asset path checked first. -/
def campaignHeroPath {Img : Type} (env : AMEnv Img) (productId campaignId : String) : String :=
  env.inputFolder ++ "/" ++ campaignId ++ "/" ++ productId ++ ".png"

/-- The globally-scoped user-asset path checked second. -/
def globalHeroPath {Img : Type} (env : AMEnv Img) (productId : String) : String :=
  env.inputFolder ++ "/" ++ productId ++ ".png"

/-- Embedding of `AssetManager._check_input_folder`: the campaign-scoped
path first, then the global path; unreadable files are skipped. -/
def checkInputFolder {Img : Type} (env : AMEnv Img) (productId campaignId : String) :
    Option Img :=
  match (env.inputFS (campaignHeroPath env productId campaignId)).found with
  | some img => some img
  | none => (env.inputFS (globalHeroPath env productId)).found

/-- The cache path for a key, `hero_` plus the key plus `.png`. -/
def cachePath (key : String) : String := "hero_" ++ key ++ ".png"

/-- Embedding of `AssetManager.get_or_generate_hero`, instrumented with
the trace of cache and generator operations it performs.  The result
triple is (image, is_cached, cost). -/
def getOrGenerateHero {Img : Type} (env : AMEnv Img) (cacheEnabled : Bool) (p : Product)
    (b : CampaignBrief) : Except String (Img × Bool × ℚ) × List Ev :=
  match checkInputFolder env p.id b.campaignId with
  | some img => (.ok (img, false, 0), [])
  | none =>
    match (if cacheEnabled then some (cacheKeyFor p b) else none : Option String) with
    | some key =>
      match env.cacheLoad (cachePath key) with
      | some img => (.ok (img, true, 0), [.computeKey, .cacheLoad])
      | none =>
        match env.generate p b with
        | .ok (img, cost) =>
            (.ok (img, false, cost), [.computeKey, .cacheLoad, .generate, .cacheSave])
        | .error e => (.error e, [.computeKey, .cacheLoad, .generate])
    | none =>
      match env.generate p b with
      | .ok (img, cost) => (.ok (img, false, cost), [.generate, .cacheSave])
      | .error e => (.error e, [.generate])

/-- Embedding of `CampaignPipeline._get_or_generate_hero`: the rate
limiter is acquired first, then the hero resolved, then post-processed. -/
def getOrGenerateHeroTask {Img : Type} (env : AMEnv Img) (cacheEnabled : Bool)
    (post : Img → Img) (p : Product) (b : CampaignBrief) :
    Except String (Img × Bool × ℚ) × List Ev :=
  let r := getOrGenerateHero env cacheEnabled p b
  (r.1.map (fun t => (post t.1, t.2.1, t.2.2)), Ev.acquire :: r.2)

/-! ## Execution context and report, embedded from `utils.py` and
`models.py`

Wall-clock fields (`start_time`, `end_time`, `execution_time`, the timing
dictionaries) are outside the embedding; none of the claims concerns
them. -/

/-- Compliance summary aggregated by `CampaignPipeline.run`. -/
structure ComplianceSummary where
  totalAssets : ℕ
  passed : ℕ
  warnings : ℕ
  errors : ℕ

/-- Campaign execution summary (`ExecutionReport` in `models.py`). -/
structure ExecutionReport where
  campaignId : String
  productsCount : ℕ
  assetsGenerated : ℕ
  assetsReused : ℕ
  totalCost : ℚ
  cacheEfficiency : ℚ
  outputPath : String
  heroImagesGenerated : ℕ
  heroImagesCached : ℕ
  variationsCreated : ℕ
  errors : List String
  complianceSummary : ComplianceSummary
  workerCount : ℕ

/-- Mutable accumulator for one run (`ExecutionContext` in `utils.py`). -/
structure ExecutionContext where
  campaignId : String
  costs : List ℚ
  errors : List String
  assetsGenerated : ℕ
  assetsReused : ℕ
  heroImagesGenerated : ℕ
  heroImagesCached : ℕ
  variationsCreated : ℕ

/-- The freshly constructed context: empty lists, all counters zero. -/
def ExecutionContext.init (campaignId : String) : ExecutionContext :=
  ⟨campaignId, [], [], 0, 0, 0, 0, 0⟩

/-- Embedding of `ExecutionContext.record_cost`. -/
def ExecutionContext.recordCost (ctx : ExecutionContext) (amount : ℚ) : ExecutionContext :=
  { ctx with costs := ctx.costs ++ [amount] }

/-- Embedding of `ExecutionContext.record_error`. -/
def ExecutionContext.recordError (ctx : ExecutionContext) (e : String) : ExecutionContext :=
  { ctx with errors := ctx.errors ++ [e] }

/-- Embedding of `ExecutionContext.get_total_cost`. -/
def ExecutionContext.totalCost (ctx : ExecutionContext) : ℚ := ctx.costs.sum

/-- Embedding of `ExecutionContext.get_report`: `products_count` is left 0
for the pipeline to overwrite, and the compliance summary and worker count
take the model defaults of `ExecutionReport` until the pipeline sets
them. -/
def ExecutionContext.getReport (ctx : ExecutionContext) : ExecutionReport :=
  let totalAssets := ctx.assetsGenerated + ctx.assetsReused
  let cacheEfficiency : ℚ :=
    if totalAssets > 0 then (ctx.assetsReused : ℚ) / (totalAssets : ℚ) * 100 else 0
  { campaignId := ctx.campaignId
    productsCount := 0
    assetsGenerated := ctx.assetsGenerated
    assetsReused := ctx.assetsReused
    totalCost := ctx.totalCost
    cacheEfficiency := cacheEfficiency
    outputPath := "./output/" ++ ctx.campaignId
    heroImagesGenerated := ctx.heroImagesGenerated
    heroImagesCached := ctx.heroImagesCached
    variationsCreated := ctx.variationsCreated
    errors := ctx.errors
    complianceSummary := ⟨0, 0, 0, 0⟩
    workerCount := 3 }

/-! ## Governance pre-flight validation, embedded from `governance.py` -/

/-- Result of pre-flight campaign validation (`ValidationResult` in
`models.py`, the dict shape `validate_campaign_brief` returns). -/
structure ValidationResult where
  passed : Bool
  errors : List String
  warnings : List String
  suggestions : List String

/-- Result of per-asset compliance checks (`ComplianceResult` in
`governance.py`). -/
structure ComplianceResult where
  passed : Bool
  warnings : List String
  errors : List String

/-- Embedding of `GovernanceEngine.validate_campaign_brief`.  The external
language-model call is the parameter `callOutcome`; its `error` case is
the `except` branch of the Python code.  With no client configured the
gate is skipped with a warning; with a client, a successful call is
post-processed by the blocking rule, and a failed call returns a failed
result carrying the exception text. -/
def validateCampaignBrief (llmClientPresent : Bool) (validationBlocking : Bool)
    (callOutcome : CampaignBrief → Except String ValidationResult) (brief : CampaignBrief) :
    ValidationResult :=
  if llmClientPresent then
    match callOutcome brief with
    | .ok r => if validationBlocking ∧ r.errors ≠ [] then { r with passed := false } else r
    | .error e => ⟨false, ["LLM validation failed: " ++ e], [], []⟩
  else ⟨true, [], ["LLM validation disabled"], []⟩

/-! ## The three-phase pipeline, embedded from `pipeline.py`

The worker pools complete independent tasks and a single loop drains them;
the embedding processes the task list in order, with the per-task bodies
(`_get_or_generate_hero` and the localize/compose/validate/save sequence
of `_compose_asset`) as `Except`-valued parameters so that a task failure
is exactly a raised exception reaching the task boundary. -/

/-- Metadata for a generated asset (`GeneratedAsset` in `models.py`). -/
structure GeneratedAsset where
  productId : String
  aspectRatio : String
  locale : String
  filePath : String
  generationCost : ℚ
  cached : Bool
  compliancePassed : Bool
  complianceWarnings : List String
  complianceErrors : List String

/-- Python dict key membership (the `in` test on `heroes` / `variants`). -/
def keyPresent {α : Type} (k : String) : List (String × α) → Bool
  | [] => false
  | kv :: rest => if kv.1 = k then true else keyPresent k rest

/-- Python dict insertion: an existing key keeps its position and gets the
new value, a new key is appended. -/
def dictInsert {α : Type} (k : String) (v : α) (d : List (String × α)) : List (String × α) :=
  if keyPresent k d then d.map (fun kv => if kv.1 = k then (k, v) else kv)
  else d ++ [(k, v)]

/-- Embedding of `CampaignPipeline._get_heroes`: one task per product; a
successful task stores the hero and bumps the cached or generated counter
(recording the cost when generated); a failed task records the error and
stores nothing. -/
def getHeroes {Img : Type} (f : Product → Except String (Img × Bool × ℚ)) :
    List Product → List (String × Img) → ExecutionContext →
      List (String × Img) × ExecutionContext
  | [], heroes, ctx => (heroes, ctx)
  | p :: ps, heroes, ctx =>
    match f p with
    | .ok (img, isCached, cost) =>
        getHeroes f ps (dictInsert p.id img heroes)
          (if isCached then { ctx with heroImagesCached := ctx.heroImagesCached + 1 }
           else ({ ctx with heroImagesGenerated := ctx.heroImagesGenerated + 1 }).recordCost cost)
    | .error e =>
        getHeroes f ps heroes (ctx.recordError ("Failed to get hero for " ++ p.id ++ ": " ++ e))

/-- Embedding of `CampaignPipeline._create_all_variations`: sequential,
one variation per configured aspect ratio per hero, one counter increment
per variation. -/
def createAllVariations {Img : Type} (aspectRatios : List String) (derive : Img → String → Img) :
    List (String × Img) → List (String × List (String × Img)) → ExecutionContext →
      List (String × List (String × Img)) × ExecutionContext
  | [], variants, ctx => (variants, ctx)
  | (pid, hero) :: rest, variants, ctx =>
      createAllVariations aspectRatios derive rest
        (variants ++ [(pid, aspectRatios.map (fun ar => (ar, derive hero ar)))])
        { ctx with variationsCreated := ctx.variationsCreated + aspectRatios.length }

/-- The task label used in error messages and timings,
`product_id_aspect_locale`. -/
def taskName (p : Product) (ar loc : String) : String := p.id ++ "_" ++ ar ++ "_" ++ loc

/-- The task list of `CampaignPipeline._compose_all_assets`: every
(product, aspect ratio, locale) triple whose product has a variant. -/
def composeTaskList (products : List Product) (hasVariant : String → Bool)
    (aspectRatios locales : List String) : List (Product × String × String) :=
  products.flatMap (fun p =>
    if hasVariant p.id then
      aspectRatios.flatMap (fun ar => locales.map (fun loc => (p, ar, loc)))
    else [])

/-- The asset `CampaignPipeline._compose_asset` returns on success:
composition itself costs nothing and is never cache-sourced. -/
def mkGeneratedAsset (p : Product) (ar loc : String) (cr : ComplianceResult)
    (path : String) : GeneratedAsset :=
  ⟨p.id, ar, loc, path, 0, false, cr.passed, cr.warnings, cr.errors⟩

/-- Embedding of the `_compose_all_assets` drain loop together with the
body of `_compose_asset`.  The parameter `g` is the
localize/compose/validate/save sequence, yielding the compliance result
and storage path or the exception it raises.  On success the asset is
appended and a failed compliance check records an error; on failure the
inner handler of `_compose_asset` records the error and re-raises, and the
drain loop records the task failure. -/
def composeTasks
    (g : Product → String → String → Except String (ComplianceResult × String)) :
    List (Product × String × String) → List GeneratedAsset → ExecutionContext →
      List GeneratedAsset × ExecutionContext
  | [], results, ctx => (results, ctx)
  | (p, ar, loc) :: ts, results, ctx =>
    match g p ar loc with
    | .ok (cr, path) =>
        composeTasks g ts (results ++ [mkGeneratedAsset p ar loc cr path])
          (if cr.passed then ctx else ctx.recordError (taskName p ar loc ++ ": Compliance failed"))
    | .error e =>
        composeTasks g ts results
          ((ctx.recordError (taskName p ar loc ++ ": " ++ e)).recordError
            ("Failed to compose " ++ taskName p ar loc ++ ": " ++ e))

/-- The three phases and the report aggregation of `CampaignPipeline.run`,
after the pre-flight gate has passed. -/
def runPhases {Img : Type} (f : Product → Except String (Img × Bool × ℚ))
    (derive : Img → String → Img)
    (g : Product → String → String → Except String (ComplianceResult × String))
    (aspectRatios : List String) (maxWorkers : ℕ) (b : CampaignBrief) :
    ExecutionReport × List GeneratedAsset :=
  let ctx0 := ExecutionContext.init b.campaignId
  let hr := getHeroes f b.products [] ctx0
  let vr := createAllVariations aspectRatios derive hr.1 [] hr.2
  let rr := composeTasks g
    (composeTaskList b.products (fun k => keyPresent k vr.1) aspectRatios b.locales)
    [] vr.2
  let report := { rr.2.getReport with
    productsCount := b.products.length
    workerCount := maxWorkers
    complianceSummary :=
      ⟨rr.1.length, (rr.1.filter (fun a => a.compliancePassed)).length,
       (rr.1.map (fun a => a.complianceWarnings.length)).sum,
       (rr.1.map (fun a => a.complianceErrors.length)).sum⟩ }
  (report, rr.1)

/-- Embedding of `CampaignPipeline.run`: the pre-flight gate, the three
phases, and the report aggregation.  A failed gate raises; afterwards the
run always produces a report. -/
def runPipeline {Img : Type} (validation : ValidationResult)
    (f : Product → Except String (Img × Bool × ℚ)) (derive : Img → String → Img)
    (g : Product → String → String → Except String (ComplianceResult × String))
    (aspectRatios : List String) (maxWorkers : ℕ) (b : CampaignBrief) :
    Except String (ExecutionReport × List GeneratedAsset) :=
  if validation.passed then
    .ok (runPhases f derive g aspectRatios maxWorkers b)
  else
    .error ("Campaign validation failed:\n" ++
      String.intercalate "\n" (validation.errors.map (fun e => "- " ++ e)))

/-! ## Aspect-ratio transform, embedded from `aspect_ratio_processor.py`

An image is its pixel dimensions; a variation is described by the output
size and the crop box (in source coordinates, as the rational values PIL
computes) that `resize` receives.  A plain resize has the full source as
its box. -/

/-- A raster image, reduced to its dimensions. -/
structure PILImage where
  width : ℕ
  height : ℕ

/-- Output size plus the source-coordinate crop box fed to `resize`. -/
structure Variation where
  size : ℕ × ℕ
  cropLeft : ℚ
  cropTop : ℚ
  cropRight : ℚ
  cropBottom : ℚ

/-- The `ASPECT_RATIO_SIZES` table. -/
def ASPECT_RATIO_SIZES : List (String × (ℕ × ℕ)) :=
  [("1:1", (1080, 1080)), ("9:16", (1080, 1920)), ("16:9", (1920, 1080))]

/-- Table lookup with the default `(1080, 1080)` of the code. -/
def aspectSizeFor (aspect : String) : ℕ × ℕ :=
  match ASPECT_RATIO_SIZES.lookup aspect with
  | some s => s
  | none => (1080, 1080)

/-- Embedding of `PIL.ImageOps.fit` with `bleed = 0` and centering
`(0.5, 0.5)`, as `_center_crop` calls it: the largest centered box of the
output aspect, then a resize to the target size. -/
def imageOpsFit (w h tw th : ℕ) : Variation :=
  let liveW : ℚ := w
  let liveH : ℚ := h
  let liveRatio := liveW / liveH
  let outRatio := (tw : ℚ) / th
  let cropW := if liveRatio = outRatio then liveW
    else if liveRatio ≥ outRatio then liveH * outRatio else liveW
  let cropH := if liveRatio = outRatio then liveH
    else if liveRatio ≥ outRatio then liveH else liveW / outRatio
  let cropLeft := (liveW - cropW) * (1 / 2)
  let cropTop := (liveH - cropH) * (1 / 2)
  ⟨(tw, th), cropLeft, cropTop, cropLeft + cropW, cropTop + cropH⟩

/-- Embedding of `AspectRatioProcessor.create_variation`: `1:1` resizes
the full source, `9:16` and `16:9` center-crop through `ImageOps.fit`, and
an unknown ratio falls back to a full resize. -/
def createVariation (img : PILImage) (targetAspect : String) : Variation :=
  let targetSize := aspectSizeFor targetAspect
  if targetAspect = "1:1" then
    ⟨targetSize, 0, 0, (img.width : ℚ), (img.height : ℚ)⟩
  else if targetAspect = "9:16" then
    imageOpsFit img.width img.height targetSize.1 targetSize.2
  else if targetAspect = "16:9" then
    imageOpsFit img.width img.height targetSize.1 targetSize.2
  else
    ⟨targetSize, 0, 0, (img.width : ℚ), (img.height : ℚ)⟩

/-! ## Post-processing chain, embedded from `post_processor.py`

Pixels are rational-valued; `astype(np.uint8)` after a clip to `[0, 255]`
truncates, which on that range is the floor.  The Gaussian noise draw is
represented as its standard deviation times a standard-normal field `u`,
and the smoothing filter behind `ImageEnhance.Sharpness` is an explicit
function parameter; neither matters at intensity zero. -/

/-- A raster image with rational channel values. -/
structure QImage where
  width : ℕ
  height : ℕ
  pix : ℕ → ℕ → Fin 3 → ℚ

/-- Embedding of `np.clip(x, 0, 255)`. -/
def clip255 (x : ℚ) : ℚ := max 0 (min 255 x)

/-- Embedding of `np.clip(x, 0, 1)`. -/
def clip01 (x : ℚ) : ℚ := max 0 (min 1 x)

/-- Embedding of `astype(np.uint8)` on a clipped value: truncation, which is the floor there. -/
def toUint8 (x : ℚ) : ℚ := (⌊x⌋ : ℚ)

/-- An image whose pixels are genuine byte values. -/
def validUint8 (img : QImage) : Prop :=
  ∀ x y c, ∃ n : ℕ, n ≤ 255 ∧ img.pix x y c = (n : ℚ)

/-- Embedding of `PostProcessor._add_film_grain`: additive noise of
standard deviation `2 * intensity`, then clip and truncate. -/
def filmGrain (intensity : ℚ) (u : ℕ → ℕ → Fin 3 → ℚ) (img : QImage) : QImage :=
  { img with pix := fun x y c =>
      toUint8 (clip255 (img.pix x y c + 2 * intensity * u x y c)) }

/-- The numpy `linspace(-1, 1, n)` grid coordinate. -/
def linGrid (n i : ℕ) : ℚ := if n ≤ 1 then -1 else -1 + 2 * i / ((n : ℚ) - 1)

/-- The squared radial distance of a grid point from the center. -/
def radiusSq (w h x y : ℕ) : ℚ := linGrid w x ^ 2 + linGrid h y ^ 2

/-- The square of `radius.max()` over the grid (the square of a maximum of
nonnegative values is the maximum of the squares). -/
def maxRadiusSq (w h : ℕ) : ℚ :=
  ((List.range w).flatMap (fun x => (List.range h).map (fun y => radiusSq w h x y))).foldr
    max 0

/-- Embedding of `PostProcessor._add_vignette`: multiplicative darkening
by `clip(1 - 0.3 * intensity * (radius / radius.max()) ^ 2, 0, 1)`, then
clip and truncate. -/
def vignette (intensity : ℚ) (img : QImage) : QImage :=
  let strength := 3 / 10 * intensity
  { img with pix := fun x y c =>
      toUint8 (clip255 (img.pix x y c *
        clip01 (1 - strength *
          (radiusSq img.width img.height x y / maxRadiusSq img.width img.height)))) }

/-- Embedding of `PostProcessor._adjust_color_temperature`: the red
channel scaled by `1 + 0.02 * intensity` and clipped, the blue channel by
`1 - 0.01 * intensity` and clipped, then the whole array truncated. -/
def colorTemperature (intensity : ℚ) (img : QImage) : QImage :=
  let warmth := 1 / 50 * intensity
  { img with pix := fun x y c =>
      if c = 0 then toUint8 (clip255 (img.pix x y c * (1 + warmth)))
      else if c = 2 then toUint8 (clip255 (img.pix x y c * (1 - warmth / 2)))
      else toUint8 (img.pix x y c) }

/-- Embedding of `PostProcessor._adjust_sharpness`:
`ImageEnhance.Sharpness(img).enhance(1 + 0.15 * intensity)`, which blends
the smoothed image with the original at the given factor. -/
def sharpness (intensity : ℚ) (smooth : QImage → QImage) (img : QImage) : QImage :=
  let factor := 1 + 3 / 20 * intensity
  let deg := smooth img
  { img with pix := fun x y c =>
      toUint8 (clip255 (deg.pix x y c + factor * (img.pix x y c - deg.pix x y c))) }

/-- Embedding of `PostProcessor.process`: grain, vignette, color
temperature, sharpness, in that order, or the untouched image when the
processor is disabled. -/
def postProcess (enabled : Bool) (intensity : ℚ) (u : ℕ → ℕ → Fin 3 → ℚ)
    (smooth : QImage → QImage) (img : QImage) : QImage :=
  if enabled then
    sharpness intensity smooth
      (colorTemperature intensity (vignette intensity (filmGrain intensity u img)))
  else img

/-! ## Token-bucket rate limiter, embedded from `utils.py`

`RateLimiter.acquire` refills from the elapsed wall-clock time, consumes a
token when one is available, and otherwise sleeps until the missing
fraction accrues; in both branches `last_refill` is the call time, not the
return time.  The embedding is the sequential semantics under a
controllable clock: an adversary chooses the delay of each call after the
previous call returns. -/

/-- The limiter state: the token count and the time of the last refill. -/
structure RLState where
  tokens : ℚ
  lastRefill : ℚ

/-- The freshly constructed limiter: a full bucket at construction time. -/
def rlInit (maxPerMinute : ℕ) (t0 : ℚ) : RLState := ⟨(maxPerMinute : ℚ), t0⟩

/-- Embedding of `RateLimiter.acquire` called at time `now`: refill from
the elapsed time, capped at capacity; then either consume a token and
return immediately, or sleep for the residual and return with an empty
bucket.  The second component is the completion time. -/
def acquireStep (maxPerMinute : ℕ) (s : RLState) (now : ℚ) : RLState × ℚ :=
  let rate := (maxPerMinute : ℚ) / 60
  let tokens2 := min ((maxPerMinute : ℚ)) (s.tokens + (now - s.lastRefill) * rate)
  if tokens2 < 1 then (⟨0, now⟩, now + (1 - tokens2) / rate)
  else (⟨tokens2 - 1, now⟩, now)

/-- The sequential trace of `acquire` calls: each gap is the delay the
caller adds after the previous call completes; the result is the list of
completion times. -/
def rlRun (maxPerMinute : ℕ) : RLState → ℚ → List ℚ → List ℚ
  | _, _, [] => []
  | s, t, gap :: gaps =>
      let r := acquireStep maxPerMinute s (t + gap)
      r.2 :: rlRun maxPerMinute r.1 r.2 gaps

/-- The number of completions inside the sliding window `(T, T + 60]`. -/
def completionsIn (comps : List ℚ) (T : ℚ) : ℕ :=
  (comps.filter (fun c => decide (T < c ∧ c ≤ T + 60))).length

/-- The virtual token balance at time `u`: the tokens a refill at `u`
would find, capped at capacity. -/
def bhat (maxPerMinute : ℕ) (s : RLState) (u : ℚ) : ℚ :=
  min ((maxPerMinute : ℚ)) (s.tokens + (u - s.lastRefill) * ((maxPerMinute : ℚ) / 60))

/-! ## Concrete sample inputs used by the witnesses -/

/-- A sample creative brief. -/
def sampleCB : CreativeBrief := ⟨"studio", "calm", ["bottle"]⟩

/-- A sample brand style. -/
def sampleBS : BrandStyle := ⟨["#ffffff"], "minimal", "commercial"⟩

/-- A product whose hero resolution succeeds in the sample runs. -/
def goodProduct : Product := ⟨"good_product", "Soap", "gentle soap", "care", sampleCB, sampleBS⟩

/-- A product whose hero resolution fails in the sample runs. -/
def badProduct : Product := ⟨"bad_product", "Mystery", "mystery item", "misc", sampleCB, sampleBS⟩

/-- A sample brief with two products and two locales. -/
def sampleBrief : CampaignBrief :=
  ⟨"spring_launch", "EU", "adults", "Fresh mornings", ["en", "fr"], [goodProduct, badProduct]⟩

/-- A passing pre-flight validation result. -/
def passValidation : ValidationResult := ⟨true, [], [], []⟩

/-- Sample hero outcomes over natural-number images: the task of the bad
product raises, every other hero is generated at cost 5. -/
def heroOutcomeSample : Product → Except String (ℕ × Bool × ℚ) :=
  fun p => if p.id = "bad_product" then .error "boom" else .ok (1, false, 5)

/-- Sample hero outcomes with no failure. -/
def heroOutcomeAllOk : Product → Except String (ℕ × Bool × ℚ) := fun _ => .ok (1, false, 5)

/-- Sample composition outcomes with no failure and passing compliance. -/
def composeOutcomeOk : Product → String → String → Except String (ComplianceResult × String) :=
  fun p ar loc => .ok (⟨true, [], []⟩, "out/" ++ taskName p ar loc)

/-- Sample identity variation derivation over natural-number images. -/
def deriveSample : ℕ → String → ℕ := fun img _ => img

/-! ## Theorems -/

/-- Sanity check of the SHA-256 embedding against the FIPS 180-4 test
vector for the message `abc`. -/
theorem sha256_test_vector_abc :
    sha256hexChars (utf8 "abc") =
      "ba7816bf8f01cfea414140de5dae2223b00361a396177a9cb410ff61f20015ad".data := by
  decide

/-! ## Auxiliary facts about the hex digest -/

/-- Each byte renders as exactly two hex characters. -/
theorem length_flatMap_byteHex (l : List ℕ) : (l.flatMap byteHex).length = 2 * l.length := by
  induction l with
  | nil => simp
  | cons x xs ih => simp [byteHex, ih]; ring

/-- The digest always has 32 bytes. -/
theorem length_sha256 (msg : List ℕ) : (sha256 msg).length = 32 := by
  simp [sha256, wordToBytesBE]

/-- The hex digest always has 64 characters. -/
theorem length_sha256hexChars (msg : List ℕ) : (sha256hexChars msg).length = 64 := by
  rw [sha256hexChars, length_flatMap_byteHex, length_sha256]

/-- Hexadecimal digit lookups with index below 16 land in the digit set. -/
theorem hexChars_getD_mem : ∀ i < 16, hexChars.getD i '0' ∈ hexChars := by decide

/-- Both characters of a byte rendering are hexadecimal digits. -/
theorem byteHex_mem_hexChars (n : ℕ) : ∀ c ∈ byteHex n, c ∈ hexChars := by
  intro c hc
  simp only [byteHex, List.mem_cons, List.not_mem_nil, or_false] at hc
  rcases hc with h | h <;> subst h <;>
    exact hexChars_getD_mem _ (Nat.mod_lt _ (by norm_num))

/-- C4: the cache key is a pure, deterministic function of exactly the
product identifier, the campaign message and the region: it equals the
first 16 characters of the SHA-256 hex digest of the three values joined,
it consists of 16 hexadecimal characters, and it is unchanged by any
variation of the other brief fields (locales, campaign id, audience,
products) or of the other product fields; aspect ratio is not an input of
the computation at all. -/
theorem C4_cache_key_deterministic (p : Product) (b : CampaignBrief) :
    cacheKeyFor p b =
        ⟨(sha256hexChars (utf8 (p.id ++ "_" ++ b.campaignMessage ++ "_" ++ b.region))).take 16⟩ ∧
    (cacheKeyFor p b).length = 16 ∧
    (∀ c ∈ (cacheKeyFor p b).data, c ∈ hexChars) ∧
    ∀ (q : Product) (b2 : CampaignBrief), p.id = q.id →
      b.campaignMessage = b2.campaignMessage → b.region = b2.region →
      cacheKeyFor p b = cacheKeyFor q b2 := by
  refine ⟨rfl, ?_, ?_, ?_⟩
  · show (cacheKeyFor p b).data.length = 16
    simp [cacheKeyFor, computeCacheKey, List.length_take, length_sha256hexChars]
  · intro c hc
    have hc2 : c ∈ sha256hexChars (utf8 (p.id ++ "_" ++ b.campaignMessage ++ "_" ++ b.region)) :=
      List.mem_of_mem_take hc
    rcases List.mem_flatMap.mp hc2 with ⟨n, _, hn⟩
    exact byteHex_mem_hexChars n c hn
  · intro q b2 h1 h2 h3
    simp [cacheKeyFor, computeCacheKey, h1, h2, h3]

/-- Witness for C4 at concrete inputs: two briefs that differ in locales,
campaign id, audience and product list but agree on the three key inputs
get the same key. -/
theorem C4_cache_key_deterministic_witness :
    (let cb : CreativeBrief := ⟨"studio", "calm", ["bottle"]⟩
     let bs : BrandStyle := ⟨["#ffffff"], "minimal", "commercial"⟩
     let p : Product := ⟨"soap_bar", "Soap", "gentle soap", "care", cb, bs⟩
     let q : Product := ⟨"soap_bar", "Other", "other text", "misc", cb, bs⟩
     let b : CampaignBrief := ⟨"spring_launch", "EU", "adults", "Fresh mornings", ["en"], [p]⟩
     let b2 : CampaignBrief := ⟨"other_campaign", "EU", "teens", "Fresh mornings", ["en", "fr"], []⟩
     (cacheKeyFor p b).length = 16 ∧ cacheKeyFor p b = cacheKeyFor q b2) := by
  refine ⟨(C4_cache_key_deterministic _ _).2.1, ?_⟩
  exact (C4_cache_key_deterministic _ _).2.2.2 _ _ rfl rfl rfl

/-- A readable image file yields its image. -/
theorem found_image {Img : Type} (img : Img) : (FileState.image img).found = some img := rfl

/-- C3: hero resolution is strict first-match-wins.  A readable
campaign-scoped asset is returned with cost 0, not flagged as cached, and
with an empty operation trace (no cache key computed, no cache load, no
generation); otherwise a readable global asset is returned the same way;
otherwise, with caching enabled, a cache hit is returned with cost 0 after
exactly a key computation and a cache load; and only when the cache also
misses is the generator invoked. -/
theorem C3_resolution_priority {Img : Type} (env : AMEnv Img) (ce : Bool) (p : Product)
    (b : CampaignBrief) :
    (∀ img, env.inputFS (campaignHeroPath env p.id b.campaignId) = .image img →
        getOrGenerateHero env ce p b = (.ok (img, false, 0), [])) ∧
    ((env.inputFS (campaignHeroPath env p.id b.campaignId)).found = none →
      ∀ img, env.inputFS (globalHeroPath env p.id) = .image img →
        getOrGenerateHero env ce p b = (.ok (img, false, 0), [])) ∧
    ((env.inputFS (campaignHeroPath env p.id b.campaignId)).found = none →
      (env.inputFS (globalHeroPath env p.id)).found = none →
      ∀ img, env.cacheLoad (cachePath (cacheKeyFor p b)) = some img →
        getOrGenerateHero env true p b = (.ok (img, true, 0), [.computeKey, .cacheLoad])) ∧
    ((env.inputFS (campaignHeroPath env p.id b.campaignId)).found = none →
      (env.inputFS (globalHeroPath env p.id)).found = none →
      env.cacheLoad (cachePath (cacheKeyFor p b)) = none →
      (∀ img cost, env.generate p b = .ok (img, cost) →
        getOrGenerateHero env true p b =
          (.ok (img, false, cost), [.computeKey, .cacheLoad, .generate, .cacheSave])) ∧
      (∀ e, env.generate p b = .error e →
        getOrGenerateHero env true p b = (.error e, [.computeKey, .cacheLoad, .generate]))) := by
  refine ⟨?_, ?_, ?_, ?_⟩
  · intro img h
    have hc : checkInputFolder env p.id b.campaignId = some img := by
      simp [checkInputFolder, h, found_image]
    simp [getOrGenerateHero, hc]
  · intro h1 img h2
    have hc : checkInputFolder env p.id b.campaignId = some img := by
      simp [checkInputFolder, h1, h2, found_image]
    simp [getOrGenerateHero, hc]
  · intro h1 h2 img h3
    have hc : checkInputFolder env p.id b.campaignId = none := by
      simp [checkInputFolder, h1, h2]
    simp [getOrGenerateHero, hc, h3]
  · intro h1 h2 h3
    have hc : checkInputFolder env p.id b.campaignId = none := by
      simp [checkInputFolder, h1, h2]
    constructor
    · intro img cost h4
      simp [getOrGenerateHero, hc, h3, h4]
    · intro e h4
      simp [getOrGenerateHero, hc, h3, h4]

/-- Witness for C3 at a concrete environment over natural-number images:
a campaign-scoped asset and a cache entry both exist, and the asset wins
with an empty trace; in a second environment with only a cache entry, the
hit is recorded after the key computation. -/
theorem C3_resolution_priority_witness :
    (let cb : CreativeBrief := ⟨"studio", "calm", ["bottle"]⟩
     let bs : BrandStyle := ⟨["#ffffff"], "minimal", "commercial"⟩
     let p : Product := ⟨"soap_bar", "Soap", "gentle soap", "care", cb, bs⟩
     let b : CampaignBrief := ⟨"spring_launch", "EU", "adults", "Fresh mornings", ["en"], [p]⟩
     let env1 : AMEnv ℕ :=
       ⟨"./assets/input",
        fun s => if s = "./assets/input/spring_launch/soap_bar.png" then .image 7 else .absent,
        fun _ => some 9, fun _ _ => .error "no api"⟩
     let env2 : AMEnv ℕ :=
       ⟨"./assets/input", fun _ => .absent,
        fun s => if s = cachePath (cacheKeyFor p b) then some 9 else none,
        fun _ _ => .error "no api"⟩
     getOrGenerateHero env1 true p b = (.ok (7, false, 0), []) ∧
       getOrGenerateHero env2 true p b = (.ok (9, true, 0), [.computeKey, .cacheLoad])) := by
  constructor
  · exact (C3_resolution_priority _ true _ _).1 7 (by decide)
  · exact (C3_resolution_priority _ true _ _).2.2.1 (by simp [FileState.found])
      (by simp [FileState.found]) 9 (by simp)

/-- C10: every hero-resolution task acquires the rate limiter exactly
once, as its very first operation, before any resolution step - so one
token is consumed per product even when the hero comes from a user file or
a cache hit and no generation call is made. -/
theorem C10_acquire_once_first {Img : Type} (env : AMEnv Img) (ce : Bool) (post : Img → Img)
    (p : Product) (b : CampaignBrief) :
    ∃ rest, (getOrGenerateHeroTask env ce post p b).2 = Ev.acquire :: rest ∧
      Ev.acquire ∉ rest := by
  refine ⟨(getOrGenerateHero env ce p b).2, rfl, ?_⟩
  rcases h1 : checkInputFolder env p.id b.campaignId with _ | img
  · rcases h2 : (if ce then some (cacheKeyFor p b) else none : Option String) with _ | key
    · rcases h4 : env.generate p b with e | ⟨img, cost⟩ <;>
        simp [getOrGenerateHero, h1, h2, h4]
    · rcases h3 : env.cacheLoad (cachePath key) with _ | img2
      · rcases h4 : env.generate p b with e | ⟨img2, cost⟩ <;>
          simp [getOrGenerateHero, h1, h2, h3, h4]
      · simp [getOrGenerateHero, h1, h2, h3]
  · simp [getOrGenerateHero, h1]

/-- Witness for C10 at a concrete environment: the trace of a resolution
that falls through to a failing generator still starts with exactly one
rate-limiter acquisition. -/
theorem C10_acquire_once_first_witness :
    ∃ rest,
      (getOrGenerateHeroTask
        (⟨"./assets/input", fun _ => .absent, fun _ => none,
          fun _ _ => .error "no api"⟩ : AMEnv ℕ)
        true id goodProduct sampleBrief).2 = Ev.acquire :: rest ∧
      Ev.acquire ∉ rest :=
  C10_acquire_once_first _ true id goodProduct sampleBrief

/-! ## Pipeline lemmas -/

/-- Key membership after the key-preserving update map of `dictInsert`. -/
theorem keyPresent_map_update {α : Type} (k k' : String) (v : α) (d : List (String × α)) :
    keyPresent k' (d.map (fun kv => if kv.1 = k then (k, v) else kv)) = keyPresent k' d := by
  induction d with
  | nil => rfl
  | cons kv rest ih =>
    by_cases h1 : kv.1 = k
    · subst h1
      by_cases h2 : kv.1 = k' <;> simp [keyPresent, h2, ih]
    · by_cases h2 : kv.1 = k'
      · have hne : ¬k' = k := fun hh => h1 (h2.trans hh)
        simp [keyPresent, h1, h2, hne, ih]
      · simp [keyPresent, h1, h2, ih]

/-- Key membership across an appended singleton. -/
theorem keyPresent_append_single {α : Type} (k k' : String) (v : α) (d : List (String × α)) :
    keyPresent k' (d ++ [(k, v)]) = true ↔ keyPresent k' d = true ∨ k' = k := by
  induction d with
  | nil => by_cases h : k = k' <;> simp [keyPresent, h, eq_comm]
  | cons kv rest ih =>
    by_cases h2 : kv.1 = k' <;> simp [keyPresent, h2, ih]

/-- Which keys a Python-style dict insertion makes present. -/
theorem keyPresent_dictInsert {α : Type} (k k' : String) (v : α) (d : List (String × α)) :
    keyPresent k' (dictInsert k v d) = true ↔ k' = k ∨ keyPresent k' d = true := by
  rw [dictInsert]
  by_cases hd : keyPresent k d
  · rw [if_pos hd, keyPresent_map_update]
    by_cases h : k' = k
    · subst h; simp [hd]
    · simp [h]
  · rw [if_neg hd, keyPresent_append_single]
    exact or_comm

/-- Keys present after Phase 1: those already present and those of
products whose hero task succeeded. -/
theorem getHeroes_keyPresent {Img : Type} (f : Product → Except String (Img × Bool × ℚ))
    (ps : List Product) (hs : List (String × Img)) (ctx : ExecutionContext) (k : String) :
    keyPresent k ((getHeroes f ps hs ctx).1) = true ↔
      keyPresent k hs = true ∨ ∃ p, p ∈ ps ∧ p.id = k ∧ ∃ t, f p = .ok t := by
  induction ps generalizing hs ctx with
  | nil => simp [getHeroes]
  | cons p ps ih =>
    rcases hf : f p with e | ⟨img, isCached, cost⟩
    · rw [getHeroes, hf]
      simp only [ih, List.mem_cons]
      constructor
      · rintro (h | ⟨q, hq, hk, t, ht⟩)
        · exact Or.inl h
        · exact Or.inr ⟨q, Or.inr hq, hk, t, ht⟩
      · rintro (h | ⟨q, rfl | hq, hk, t, ht⟩)
        · exact Or.inl h
        · rw [hf] at ht; cases ht
        · exact Or.inr ⟨q, hq, hk, t, ht⟩
    · rw [getHeroes, hf]
      simp only [ih, keyPresent_dictInsert, List.mem_cons]
      constructor
      · rintro ((rfl | h) | ⟨q, hq, hk, t, ht⟩)
        · exact Or.inr ⟨p, Or.inl rfl, rfl, _, hf⟩
        · exact Or.inl h
        · exact Or.inr ⟨q, Or.inr hq, hk, t, ht⟩
      · rintro (h | ⟨q, rfl | hq, hk, t, ht⟩)
        · exact Or.inl (Or.inr h)
        · exact Or.inl (Or.inl hk.symm)
        · exact Or.inr ⟨q, hq, hk, t, ht⟩

/-- The error strings Phase 1 appends: one per failed hero task. -/
theorem getHeroes_errors {Img : Type} (f : Product → Except String (Img × Bool × ℚ))
    (ps : List Product) (hs : List (String × Img)) (ctx : ExecutionContext) :
    ((getHeroes f ps hs ctx).2).errors = ctx.errors ++ ps.flatMap (fun p =>
      match f p with
      | .ok _ => []
      | .error e => ["Failed to get hero for " ++ p.id ++ ": " ++ e]) := by
  induction ps generalizing hs ctx with
  | nil => simp [getHeroes]
  | cons p ps ih =>
    rcases hf : f p with e | ⟨img, isCached, cost⟩
    · rw [getHeroes, hf]
      simp [ih, hf, ExecutionContext.recordError]
    · rw [getHeroes, hf]
      cases isCached <;> simp [ih, hf, ExecutionContext.recordCost]

/-- Phase 1 never touches the `assets_generated` and `assets_reused`
counters. -/
theorem getHeroes_reuse_counters {Img : Type} (f : Product → Except String (Img × Bool × ℚ))
    (ps : List Product) (hs : List (String × Img)) (ctx : ExecutionContext) :
    ((getHeroes f ps hs ctx).2).assetsGenerated = ctx.assetsGenerated ∧
      ((getHeroes f ps hs ctx).2).assetsReused = ctx.assetsReused := by
  induction ps generalizing hs ctx with
  | nil => simp [getHeroes]
  | cons p ps ih =>
    rcases hf : f p with e | ⟨img, isCached, cost⟩
    · rw [getHeroes, hf]
      simp [ih, hf, ExecutionContext.recordError]
    · rw [getHeroes, hf]
      cases isCached <;> simp [ih, hf, ExecutionContext.recordCost]

/-- Phase 2 appends one variant entry per hero, in order. -/
theorem createAllVariations_fst {Img : Type} (ars : List String) (derive : Img → String → Img)
    (hs : List (String × Img)) (vs : List (String × List (String × Img)))
    (ctx : ExecutionContext) :
    (createAllVariations ars derive hs vs ctx).1 =
      vs ++ hs.map (fun ph => (ph.1, ars.map (fun ar => (ar, derive ph.2 ar)))) := by
  induction hs generalizing vs ctx with
  | nil => simp [createAllVariations]
  | cons ph rest ih => simp [createAllVariations, ih]

/-- Phase 2 only bumps the variation counter: errors and the reuse
counters pass through. -/
theorem createAllVariations_ctx {Img : Type} (ars : List String) (derive : Img → String → Img)
    (hs : List (String × Img)) (vs : List (String × List (String × Img)))
    (ctx : ExecutionContext) :
    ((createAllVariations ars derive hs vs ctx).2).errors = ctx.errors ∧
      ((createAllVariations ars derive hs vs ctx).2).assetsGenerated = ctx.assetsGenerated ∧
      ((createAllVariations ars derive hs vs ctx).2).assetsReused = ctx.assetsReused := by
  induction hs generalizing vs ctx with
  | nil => simp [createAllVariations]
  | cons ph rest ih => simp [createAllVariations, ih]

/-- Key membership survives a key-preserving map of the values. -/
theorem keyPresent_map_pair {α β : Type} (l : List (String × α)) (gfun : String × α → β)
    (k : String) :
    keyPresent k (l.map (fun kv => (kv.1, gfun kv))) = keyPresent k l := by
  induction l with
  | nil => rfl
  | cons kv rest ih =>
    by_cases h : kv.1 = k <;> simp [keyPresent, h, ih]

/-- Phase 3 appends one asset per successfully composed task, in task
order. -/
theorem composeTasks_fst
    (g : Product → String → String → Except String (ComplianceResult × String))
    (ts : List (Product × String × String)) (res : List GeneratedAsset)
    (ctx : ExecutionContext) :
    (composeTasks g ts res ctx).1 = res ++ ts.filterMap (fun t =>
      match g t.1 t.2.1 t.2.2 with
      | .ok (cr, path) => some (mkGeneratedAsset t.1 t.2.1 t.2.2 cr path)
      | .error _ => none) := by
  induction ts generalizing res ctx with
  | nil => simp [composeTasks]
  | cons t ts ih =>
    obtain ⟨p, ar, loc⟩ := t
    rcases hg : g p ar loc with e | ⟨cr, path⟩ <;> rw [composeTasks, hg] <;> simp [ih, hg]

/-- The error strings Phase 3 appends: a compliance error per failed
check, and two entries per failed task (the inner handler of
`_compose_asset` plus the drain loop). -/
theorem composeTasks_errors
    (g : Product → String → String → Except String (ComplianceResult × String))
    (ts : List (Product × String × String)) (res : List GeneratedAsset)
    (ctx : ExecutionContext) :
    ((composeTasks g ts res ctx).2).errors = ctx.errors ++ ts.flatMap (fun t =>
      match g t.1 t.2.1 t.2.2 with
      | .ok (cr, _) =>
          if cr.passed then [] else [taskName t.1 t.2.1 t.2.2 ++ ": Compliance failed"]
      | .error e => [taskName t.1 t.2.1 t.2.2 ++ ": " ++ e,
          "Failed to compose " ++ taskName t.1 t.2.1 t.2.2 ++ ": " ++ e]) := by
  induction ts generalizing res ctx with
  | nil => simp [composeTasks]
  | cons t ts ih =>
    obtain ⟨p, ar, loc⟩ := t
    rcases hg : g p ar loc with e | ⟨cr, path⟩ <;> rw [composeTasks, hg]
    · simp [ih, hg, ExecutionContext.recordError]
    · cases hcr : cr.passed <;>
        simp [ih, hg, hcr, ExecutionContext.recordError]

/-- Phase 3 never touches the `assets_generated` and `assets_reused`
counters. -/
theorem composeTasks_reuse_counters
    (g : Product → String → String → Except String (ComplianceResult × String))
    (ts : List (Product × String × String)) (res : List GeneratedAsset)
    (ctx : ExecutionContext) :
    ((composeTasks g ts res ctx).2).assetsGenerated = ctx.assetsGenerated ∧
      ((composeTasks g ts res ctx).2).assetsReused = ctx.assetsReused := by
  induction ts generalizing res ctx with
  | nil => simp [composeTasks]
  | cons t ts ih =>
    obtain ⟨p, ar, loc⟩ := t
    rcases hg : g p ar loc with e | ⟨cr, path⟩ <;> rw [composeTasks, hg]
    · simp [ih, ExecutionContext.recordError]
    · cases hcr : cr.passed <;> simp [ih, hcr, ExecutionContext.recordError]

/-- Membership in the Phase 3 task list. -/
theorem mem_composeTaskList (products : List Product) (hasVariant : String → Bool)
    (ars locs : List String) (p : Product) (ar loc : String) :
    (p, ar, loc) ∈ composeTaskList products hasVariant ars locs ↔
      p ∈ products ∧ hasVariant p.id = true ∧ ar ∈ ars ∧ loc ∈ locs := by
  constructor
  · intro h
    rcases List.mem_flatMap.mp h with ⟨q, hq, hmem⟩
    by_cases hv : hasVariant q.id
    · rw [if_pos hv] at hmem
      rcases List.mem_flatMap.mp hmem with ⟨ar2, har2, hmem2⟩
      rcases List.mem_map.mp hmem2 with ⟨loc2, hloc2, heq⟩
      obtain ⟨h1, h2, h3⟩ : q = p ∧ ar2 = ar ∧ loc2 = loc := by
        simpa [Prod.ext_iff] using heq
      subst h1; subst h2; subst h3
      exact ⟨hq, hv, har2, hloc2⟩
    · rw [if_neg hv] at hmem
      cases hmem
  · rintro ⟨hp, hv, har, hloc⟩
    refine List.mem_flatMap.mpr ⟨p, hp, ?_⟩
    rw [if_pos hv]
    exact List.mem_flatMap.mpr ⟨ar, har, List.mem_map.mpr ⟨loc, hloc, rfl⟩⟩

/-- A flat map whose pieces share a length multiplies it out. -/
theorem length_flatMap_const {α β : Type} (l : List α) (f : α → List β) (n : ℕ)
    (h : ∀ a ∈ l, (f a).length = n) : (l.flatMap f).length = l.length * n := by
  induction l with
  | nil => simp
  | cons a l ih =>
    simp [h a (List.mem_cons_self a l), ih (fun x hx => h x (List.mem_cons_of_mem a hx))]
    ring

/-- A filter map that never drops keeps the length. -/
theorem length_filterMap_of_isSome {α β : Type} (l : List α) (f : α → Option β)
    (h : ∀ a ∈ l, (f a).isSome) : (l.filterMap f).length = l.length := by
  induction l with
  | nil => simp
  | cons a l ih =>
    rcases Option.isSome_iff_exists.mp (h a (List.mem_cons_self a l)) with ⟨b, hb⟩
    simp [List.filterMap_cons, hb, ih (fun x hx => h x (List.mem_cons_of_mem a hx))]

/-- The report carries the context error list unchanged. -/
theorem getReport_errors (ctx : ExecutionContext) : ctx.getReport.errors = ctx.errors := rfl

/-- The report copies the `assets_generated` counter. -/
theorem getReport_assetsGenerated (ctx : ExecutionContext) :
    ctx.getReport.assetsGenerated = ctx.assetsGenerated := rfl

/-- The report copies the `assets_reused` counter. -/
theorem getReport_assetsReused (ctx : ExecutionContext) :
    ctx.getReport.assetsReused = ctx.assetsReused := rfl

/-- C8: with a language-model client configured, a raising external
pre-flight call surfaces as a failed validation result - `passed` is false
and the error list is the non-empty singleton carrying the exception text,
for every brief and independently of the blocking configuration. -/
theorem C8_preflight_fail_closed (blocking : Bool)
    (callOutcome : CampaignBrief → Except String ValidationResult) (brief : CampaignBrief)
    (e : String) (h : callOutcome brief = .error e) :
    (validateCampaignBrief true blocking callOutcome brief).passed = false ∧
      (validateCampaignBrief true blocking callOutcome brief).errors =
        ["LLM validation failed: " ++ e] ∧
      (validateCampaignBrief true blocking callOutcome brief).errors ≠ [] := by
  simp [validateCampaignBrief, h]

/-- Record updates performed by `run` do not change the error list. -/
theorem report_update_errors (r : ExecutionReport) (n w : ℕ) (cs : ComplianceSummary) :
    ({ r with productsCount := n, workerCount := w, complianceSummary := cs }).errors =
      r.errors := rfl

/-- The error list of the report the phases produce: the Phase 1 failures
in product order, then the Phase 3 entries in task order. -/
theorem runPhases_fst_errors {Img : Type} (f : Product → Except String (Img × Bool × ℚ))
    (derive : Img → String → Img)
    (g : Product → String → String → Except String (ComplianceResult × String))
    (ars : List String) (mw : ℕ) (b : CampaignBrief) :
    (runPhases f derive g ars mw b).1.errors =
      (b.products.flatMap fun p =>
        match f p with
        | .ok _ => []
        | .error e => ["Failed to get hero for " ++ p.id ++ ": " ++ e]) ++
      ((composeTaskList b.products
          (fun k => keyPresent k
            (getHeroes f b.products [] (ExecutionContext.init b.campaignId)).1)
          ars b.locales).flatMap fun t =>
        match g t.1 t.2.1 t.2.2 with
        | .ok (cr, _) =>
            if cr.passed then [] else [taskName t.1 t.2.1 t.2.2 ++ ": Compliance failed"]
        | .error e => [taskName t.1 t.2.1 t.2.2 ++ ": " ++ e,
            "Failed to compose " ++ taskName t.1 t.2.1 t.2.2 ++ ": " ++ e]) := by
  unfold runPhases
  dsimp only
  rw [getReport_errors, composeTasks_errors, (createAllVariations_ctx _ _ _ _ _).1,
    getHeroes_errors]
  simp only [createAllVariations_fst, List.nil_append, keyPresent_map_pair,
    ExecutionContext.init]

/-- The assets the phases produce: one per task whose composition
succeeded, in task order. -/
theorem runPhases_snd {Img : Type} (f : Product → Except String (Img × Bool × ℚ))
    (derive : Img → String → Img)
    (g : Product → String → String → Except String (ComplianceResult × String))
    (ars : List String) (mw : ℕ) (b : CampaignBrief) :
    (runPhases f derive g ars mw b).2 =
      (composeTaskList b.products
          (fun k => keyPresent k
            (getHeroes f b.products [] (ExecutionContext.init b.campaignId)).1)
          ars b.locales).filterMap (fun t =>
        match g t.1 t.2.1 t.2.2 with
        | .ok (cr, path) => some (mkGeneratedAsset t.1 t.2.1 t.2.2 cr path)
        | .error _ => none) := by
  unfold runPhases
  dsimp only
  rw [composeTasks_fst]
  simp only [createAllVariations_fst, List.nil_append, keyPresent_map_pair]

/-- The aggregated `total_assets` is the length of the asset list. -/
theorem runPhases_totalAssets {Img : Type} (f : Product → Except String (Img × Bool × ℚ))
    (derive : Img → String → Img)
    (g : Product → String → String → Except String (ComplianceResult × String))
    (ars : List String) (mw : ℕ) (b : CampaignBrief) :
    (runPhases f derive g ars mw b).1.complianceSummary.totalAssets =
      (runPhases f derive g ars mw b).2.length := rfl

/-- The report of a context whose reuse counters are zero reports zero
cache efficiency. -/
theorem getReport_cacheEfficiency_zero (ctx : ExecutionContext)
    (h1 : ctx.assetsGenerated = 0) (h2 : ctx.assetsReused = 0) :
    ctx.getReport.cacheEfficiency = 0 := by
  simp [ExecutionContext.getReport, h1, h2]

/-- C1: for every brief passing the pre-flight gate the pipeline returns a
report rather than raising; each failed hero task and each failed
composition task is recorded as a string in the report error list; a
product whose hero task failed contributes no composed asset; and every
task of a product with a resolved hero whose composition succeeds
contributes its asset. -/
theorem C1_partial_failure_isolation {Img : Type} (v : ValidationResult)
    (f : Product → Except String (Img × Bool × ℚ)) (derive : Img → String → Img)
    (g : Product → String → String → Except String (ComplianceResult × String))
    (ars : List String) (mw : ℕ) (b : CampaignBrief)
    (hv : v.passed = true) (hids : (b.products.map Product.id).Nodup) :
    ∃ report results, runPipeline v f derive g ars mw b = .ok (report, results) ∧
      (∀ p ∈ b.products, ∀ e, f p = .error e →
        ("Failed to get hero for " ++ p.id ++ ": " ++ e) ∈ report.errors ∧
        ∀ a ∈ results, a.productId ≠ p.id) ∧
      (∀ p ∈ b.products, ∀ ar ∈ ars, ∀ loc ∈ b.locales, ∀ e, (∃ t, f p = .ok t) →
        g p ar loc = .error e →
        ("Failed to compose " ++ taskName p ar loc ++ ": " ++ e) ∈ report.errors) ∧
      (∀ p ∈ b.products, ∀ ar ∈ ars, ∀ loc ∈ b.locales, ∀ cr path, (∃ t, f p = .ok t) →
        g p ar loc = .ok (cr, path) → mkGeneratedAsset p ar loc cr path ∈ results) := by
  refine ⟨(runPhases f derive g ars mw b).1,
    (runPhases f derive g ars mw b).2,
    by unfold runPipeline; rw [if_pos hv], ?_, ?_, ?_⟩
  · intro p hp e he
    constructor
    · rw [runPhases_fst_errors]
      refine List.mem_append_left _ (List.mem_flatMap.mpr ⟨p, hp, ?_⟩)
      simp [he]
    · intro a ha hcontra
      rw [runPhases_snd] at ha
      rcases List.mem_filterMap.mp ha with ⟨t, ht, hsome⟩
      obtain ⟨q, ar, loc⟩ := t
      rcases hg : g q ar loc with e2 | ⟨cr, path⟩
      · rw [hg] at hsome; cases hsome
      · rw [hg] at hsome
        have haq : a = mkGeneratedAsset q ar loc cr path := (Option.some_inj.mp hsome).symm
        have hqid : q.id = p.id := by
          rw [← hcontra, haq]; rfl
        obtain ⟨hqmem, hhasv, -, -⟩ := (mem_composeTaskList _ _ _ _ _ _ _).mp ht
        rcases (getHeroes_keyPresent f b.products [] _ q.id).mp hhasv with h0 | ⟨p2, hp2, hid2, t2, ht2⟩
        · cases h0
        · have hp2p : p2 = p :=
            List.inj_on_of_nodup_map hids hp2 hp (by rw [hid2, hqid])
          rw [hp2p, he] at ht2
          cases ht2
  · intro p hp ar har loc hloc e hok hg
    rcases hok with ⟨t, ht⟩
    rw [runPhases_fst_errors]
    refine List.mem_append_right _ (List.mem_flatMap.mpr ⟨(p, ar, loc), ?_, ?_⟩)
    · exact (mem_composeTaskList _ _ _ _ _ _ _).mpr
        ⟨hp, (getHeroes_keyPresent f b.products [] _ p.id).mpr (Or.inr ⟨p, hp, rfl, t, ht⟩),
          har, hloc⟩
    · simp [hg]
  · intro p hp ar har loc hloc cr path hok hg
    rcases hok with ⟨t, ht⟩
    rw [runPhases_snd]
    refine List.mem_filterMap.mpr ⟨(p, ar, loc), ?_, ?_⟩
    · exact (mem_composeTaskList _ _ _ _ _ _ _).mpr
        ⟨hp, (getHeroes_keyPresent f b.products [] _ p.id).mpr (Or.inr ⟨p, hp, rfl, t, ht⟩),
          har, hloc⟩
    · simp [hg]

/-- Witness for C1: a two-product brief whose second hero task raises; the
run returns a report whose error list names the failure and whose assets
avoid the failed product. -/
theorem C1_partial_failure_isolation_witness :
    ∃ report results,
      runPipeline passValidation heroOutcomeSample deriveSample composeOutcomeOk
        ["1:1"] 3 sampleBrief = .ok (report, results) ∧
      ("Failed to get hero for bad_product: boom") ∈ report.errors ∧
      ∀ a ∈ results, a.productId ≠ "bad_product" := by
  obtain ⟨report, results, heq, ha, -, -⟩ :=
    C1_partial_failure_isolation passValidation heroOutcomeSample deriveSample
      composeOutcomeOk ["1:1"] 3 sampleBrief rfl (by decide)
  have hbad : badProduct ∈ sampleBrief.products := by
    simp [sampleBrief]
  have hres := ha badProduct hbad "boom" rfl
  exact ⟨report, results, heq, hres.1, fun a haa => hres.2 a haa⟩

/-- C2: with a passing gate and no task failures, the pipeline produces
exactly products x aspect-ratios x locales composed assets, and the
compliance summary of the report counts the same number. -/
theorem C2_asset_count {Img : Type} (v : ValidationResult)
    (f : Product → Except String (Img × Bool × ℚ)) (derive : Img → String → Img)
    (g : Product → String → String → Except String (ComplianceResult × String))
    (ars : List String) (mw : ℕ) (b : CampaignBrief)
    (hv : v.passed = true)
    (hok : ∀ p ∈ b.products, ∃ t, f p = .ok t)
    (hcomp : ∀ p ∈ b.products, ∀ ar ∈ ars, ∀ loc ∈ b.locales, ∃ r, g p ar loc = .ok r) :
    ∃ report results, runPipeline v f derive g ars mw b = .ok (report, results) ∧
      results.length = b.products.length * ars.length * b.locales.length ∧
      report.complianceSummary.totalAssets =
        b.products.length * ars.length * b.locales.length := by
  have hlen : (runPhases f derive g ars mw b).2.length =
      b.products.length * ars.length * b.locales.length := by
    rw [runPhases_snd, length_filterMap_of_isSome]
    · rw [composeTaskList,
        length_flatMap_const _ _ (ars.length * b.locales.length) ?_, Nat.mul_assoc]
      intro p hp
      rcases hok p hp with ⟨t, ht⟩
      rw [if_pos ((getHeroes_keyPresent f b.products [] _ p.id).mpr
        (Or.inr ⟨p, hp, rfl, t, ht⟩))]
      exact length_flatMap_const _ _ b.locales.length
        (fun ar har => List.length_map _ _)
    · intro t htmem
      obtain ⟨q, ar, loc⟩ := t
      obtain ⟨hq, -, har, hloc⟩ := (mem_composeTaskList _ _ _ _ _ _ _).mp htmem
      rcases hcomp q hq ar har loc hloc with ⟨⟨cr, path⟩, hg⟩
      simp [hg]
  exact ⟨(runPhases f derive g ars mw b).1,
    (runPhases f derive g ars mw b).2,
    by unfold runPipeline; rw [if_pos hv], hlen,
    by rw [runPhases_totalAssets, hlen]⟩

/-- Witness for C2, the end-to-end example of the specification: two
products, locales en and fr, three aspect ratios, no failures, twelve
assets. -/
theorem C2_asset_count_witness :
    ∃ report results,
      runPipeline passValidation heroOutcomeAllOk deriveSample composeOutcomeOk
        ["1:1", "9:16", "16:9"] 3 sampleBrief = .ok (report, results) ∧
      results.length = 12 ∧ report.complianceSummary.totalAssets = 12 := by
  obtain ⟨report, results, heq, h1, h2⟩ :=
    C2_asset_count passValidation heroOutcomeAllOk deriveSample composeOutcomeOk
      ["1:1", "9:16", "16:9"] 3 sampleBrief rfl
      (fun p _ => ⟨(1, false, 5), rfl⟩)
      (fun p _ ar _ loc _ => ⟨(⟨true, [], []⟩, "out/" ++ taskName p ar loc), rfl⟩)
  exact ⟨report, results, heq, by simpa [sampleBrief] using h1,
    by simpa [sampleBrief] using h2⟩

/-- C9: every report a run produces has `assets_generated = 0`,
`assets_reused = 0` and `cache_efficiency = 0.0`: no pipeline operation
ever increments the context counters those fields are computed from. -/
theorem C9_reuse_counters_zero {Img : Type} (v : ValidationResult)
    (f : Product → Except String (Img × Bool × ℚ)) (derive : Img → String → Img)
    (g : Product → String → String → Except String (ComplianceResult × String))
    (ars : List String) (mw : ℕ) (b : CampaignBrief) :
    ∀ report results, runPipeline v f derive g ars mw b = .ok (report, results) →
      report.assetsGenerated = 0 ∧ report.assetsReused = 0 ∧ report.cacheEfficiency = 0 := by
  intro report results h
  by_cases hp : v.passed = true
  · unfold runPipeline at h
    rw [if_pos hp] at h
    have hrep : report = (runPhases f derive g ars mw b).1 := by
      cases h; rfl
    subst hrep
    have hg : (runPhases f derive g ars mw b).1.assetsGenerated = 0 ∧
        (runPhases f derive g ars mw b).1.assetsReused = 0 := by
      unfold runPhases
      dsimp only
      rw [getReport_assetsGenerated, getReport_assetsReused,
        (composeTasks_reuse_counters _ _ _ _).1, (composeTasks_reuse_counters _ _ _ _).2,
        (createAllVariations_ctx _ _ _ _ _).2.1, (createAllVariations_ctx _ _ _ _ _).2.2,
        (getHeroes_reuse_counters _ _ _ _).1, (getHeroes_reuse_counters _ _ _ _).2]
      exact ⟨rfl, rfl⟩
    refine ⟨hg.1, hg.2, ?_⟩
    unfold runPhases at hg ⊢
    dsimp only at hg ⊢
    exact getReport_cacheEfficiency_zero _
      (by rw [getReport_assetsGenerated] at hg; exact hg.1)
      (by rw [getReport_assetsReused] at hg; exact hg.2)
  · unfold runPipeline at h
    rw [if_neg hp] at h
    cases h

/-- Witness for C9: a concrete run with generated and reused heroes still
reports zero for the reuse counters and cache efficiency. -/
theorem C9_reuse_counters_zero_witness :
    ∃ rr, runPipeline passValidation heroOutcomeSample deriveSample composeOutcomeOk
        ["1:1"] 3 sampleBrief = .ok rr ∧
      rr.1.assetsGenerated = 0 ∧ rr.1.assetsReused = 0 ∧ rr.1.cacheEfficiency = 0 := by
  refine ⟨runPhases heroOutcomeSample deriveSample composeOutcomeOk ["1:1"] 3 sampleBrief,
    ?_, ?_⟩
  · unfold runPipeline
    rw [if_pos (show passValidation.passed = true from rfl)]
  · exact C9_reuse_counters_zero passValidation heroOutcomeSample deriveSample
      composeOutcomeOk ["1:1"] 3 sampleBrief _ _
      (by unfold runPipeline; rw [if_pos (show passValidation.passed = true from rfl)])

/-- Witness for C8: a concrete brief and a connection error. -/
theorem C8_preflight_fail_closed_witness :
    (let cb : CreativeBrief := ⟨"studio", "calm", ["bottle"]⟩
     let bs : BrandStyle := ⟨["#ffffff"], "minimal", "commercial"⟩
     let p : Product := ⟨"soap_bar", "Soap", "gentle soap", "care", cb, bs⟩
     let b : CampaignBrief := ⟨"spring_launch", "EU", "adults", "Fresh mornings", ["en"], [p]⟩
     let co : CampaignBrief → Except String ValidationResult :=
       fun _ => .error "connection refused"
     (validateCampaignBrief true true co b).passed = false ∧
       (validateCampaignBrief true true co b).errors =
         ["LLM validation failed: connection refused"] ∧
       (validateCampaignBrief true true co b).errors ≠ []) :=
  C8_preflight_fail_closed true _ _ "connection refused" rfl

/-! ## Aspect-ratio theorems -/

/-- Geometry of `ImageOps.fit` with centering `(0.5, 0.5)`: the output has
the requested size and the crop box is centered (equal margins on both
axes), stays within the source, and has exactly the target aspect. -/
theorem imageOpsFit_spec (w h tw th : ℕ) (hw : 0 < w) (hh : 0 < h) (htw : 0 < tw)
    (hth : 0 < th) :
    (imageOpsFit w h tw th).size = (tw, th) ∧
    (imageOpsFit w h tw th).cropLeft + (imageOpsFit w h tw th).cropRight = w ∧
    (imageOpsFit w h tw th).cropTop + (imageOpsFit w h tw th).cropBottom = h ∧
    (0 ≤ (imageOpsFit w h tw th).cropLeft ∧ (imageOpsFit w h tw th).cropRight ≤ w ∧
      0 ≤ (imageOpsFit w h tw th).cropTop ∧ (imageOpsFit w h tw th).cropBottom ≤ h) ∧
    ((imageOpsFit w h tw th).cropRight - (imageOpsFit w h tw th).cropLeft) * th =
      ((imageOpsFit w h tw th).cropBottom - (imageOpsFit w h tw th).cropTop) * tw := by
  have hwq : (0 : ℚ) < w := by exact_mod_cast hw
  have hhq : (0 : ℚ) < h := by exact_mod_cast hh
  have htwq : (0 : ℚ) < tw := by exact_mod_cast htw
  have hthq : (0 : ℚ) < th := by exact_mod_cast hth
  dsimp only [imageOpsFit]
  by_cases h1 : (w : ℚ) / (h : ℚ) = (tw : ℚ) / (th : ℚ)
  · have key : (w : ℚ) * th = (tw : ℚ) * h := by
      rw [div_eq_div_iff hhq.ne' hthq.ne'] at h1
      exact h1
    simp only [if_pos h1]
    refine ⟨trivial, by ring, by ring,
      ⟨by linarith, by linarith, by linarith, by linarith⟩, ?_⟩
    ring_nf
    ring_nf at key
    linarith
  · by_cases h2 : (w : ℚ) / (h : ℚ) ≥ (tw : ℚ) / (th : ℚ)
    · have h2' : (tw : ℚ) * h ≤ (w : ℚ) * th := by
        rw [ge_iff_le, div_le_div_iff₀ hthq hhq] at h2
        exact h2
      have hcw_le : (h : ℚ) * ((tw : ℚ) / (th : ℚ)) ≤ w := by
        rw [← mul_div_assoc, div_le_iff₀ hthq]
        linarith
      have hcw_nonneg : (0 : ℚ) ≤ (h : ℚ) * ((tw : ℚ) / (th : ℚ)) :=
        mul_nonneg hhq.le (div_nonneg htwq.le hthq.le)
      have haspect : (h : ℚ) * ((tw : ℚ) / (th : ℚ)) * th = (h : ℚ) * tw := by
        field_simp
      simp only [if_neg h1, if_pos h2]
      refine ⟨trivial, by ring, by ring,
        ⟨by linarith, by linarith, by linarith, by linarith⟩, ?_⟩
      ring_nf
      ring_nf at haspect
      linarith
    · have h2' : (w : ℚ) * th < (tw : ℚ) * h := by
        have := not_le.mp h2
        rw [div_lt_div_iff₀ hhq hthq] at this
        exact this
      have hch_le : (w : ℚ) / ((tw : ℚ) / (th : ℚ)) ≤ h := by
        rw [div_div_eq_mul_div, div_le_iff₀ htwq]
        linarith
      have hch_nonneg : (0 : ℚ) ≤ (w : ℚ) / ((tw : ℚ) / (th : ℚ)) :=
        div_nonneg hwq.le (div_nonneg htwq.le hthq.le)
      have haspect : (w : ℚ) / ((tw : ℚ) / (th : ℚ)) * tw = (w : ℚ) * th := by
        rw [div_div_eq_mul_div, div_mul_cancel₀ _ (ne_of_gt htwq)]
      simp only [if_neg h1, if_neg h2]
      refine ⟨trivial, by ring, by ring,
        ⟨by linarith, by linarith, by linarith, by linarith⟩, ?_⟩
      ring_nf
      ring_nf at haspect
      linarith

/-- C5: `derive(hero, 1:1)` resizes the full source to the square target
with no cropping (the crop box is the whole image), while `9:16` and
`16:9` center-crop and resize to exactly the configured 1080x1920 and
1920x1080: the crop box is center-anchored (equal margins on each axis),
lies within the source, and carries exactly the target aspect ratio. -/
theorem C5_variation_geometry (img : PILImage) (hw : 0 < img.width) (hh : 0 < img.height) :
    ((createVariation img "1:1").size = (1080, 1080) ∧
      (createVariation img "1:1").cropLeft = 0 ∧
      (createVariation img "1:1").cropTop = 0 ∧
      (createVariation img "1:1").cropRight = img.width ∧
      (createVariation img "1:1").cropBottom = img.height) ∧
    ((createVariation img "9:16").size = (1080, 1920) ∧
      (createVariation img "9:16").cropLeft + (createVariation img "9:16").cropRight =
        img.width ∧
      (createVariation img "9:16").cropTop + (createVariation img "9:16").cropBottom =
        img.height ∧
      (0 ≤ (createVariation img "9:16").cropLeft ∧
        (createVariation img "9:16").cropRight ≤ img.width ∧
        0 ≤ (createVariation img "9:16").cropTop ∧
        (createVariation img "9:16").cropBottom ≤ img.height) ∧
      ((createVariation img "9:16").cropRight - (createVariation img "9:16").cropLeft) *
          1920 =
        ((createVariation img "9:16").cropBottom - (createVariation img "9:16").cropTop) *
          1080) ∧
    ((createVariation img "16:9").size = (1920, 1080) ∧
      (createVariation img "16:9").cropLeft + (createVariation img "16:9").cropRight =
        img.width ∧
      (createVariation img "16:9").cropTop + (createVariation img "16:9").cropBottom =
        img.height ∧
      (0 ≤ (createVariation img "16:9").cropLeft ∧
        (createVariation img "16:9").cropRight ≤ img.width ∧
        0 ≤ (createVariation img "16:9").cropTop ∧
        (createVariation img "16:9").cropBottom ≤ img.height) ∧
      ((createVariation img "16:9").cropRight - (createVariation img "16:9").cropLeft) *
          1080 =
        ((createVariation img "16:9").cropBottom - (createVariation img "16:9").cropTop) *
          1920) := by
  have h916 : createVariation img "9:16" = imageOpsFit img.width img.height 1080 1920 := rfl
  have h169 : createVariation img "16:9" = imageOpsFit img.width img.height 1920 1080 := rfl
  refine ⟨⟨rfl, rfl, rfl, rfl, rfl⟩, ?_, ?_⟩
  · rw [h916]
    obtain ⟨hsz, hcx, hcy, hbox, hasp⟩ :=
      imageOpsFit_spec img.width img.height 1080 1920 hw hh (by norm_num) (by norm_num)
    exact ⟨hsz, hcx, hcy, hbox, by exact_mod_cast hasp⟩
  · rw [h169]
    obtain ⟨hsz, hcx, hcy, hbox, hasp⟩ :=
      imageOpsFit_spec img.width img.height 1920 1080 hw hh (by norm_num) (by norm_num)
    exact ⟨hsz, hcx, hcy, hbox, by exact_mod_cast hasp⟩

/-- Witness for C5 at a concrete 100 x 50 source image. -/
theorem C5_variation_geometry_witness :
    (createVariation ⟨100, 50⟩ "1:1").size = (1080, 1080) ∧
      (createVariation ⟨100, 50⟩ "1:1").cropRight = 100 ∧
      (createVariation ⟨100, 50⟩ "9:16").size = (1080, 1920) ∧
      (createVariation ⟨100, 50⟩ "9:16").cropLeft +
        (createVariation ⟨100, 50⟩ "9:16").cropRight = 100 ∧
      (createVariation ⟨100, 50⟩ "16:9").size = (1920, 1080) := by
  obtain ⟨⟨h1, -, -, h2, -⟩, ⟨h3, h4, -⟩, ⟨h5, -⟩⟩ :=
    C5_variation_geometry ⟨100, 50⟩ (by norm_num) (by norm_num)
  exact ⟨h1, h2, h3, h4, h5⟩

/-! ## Post-processing theorems -/

/-- Clipping and truncation fix genuine byte values. -/
theorem byte_fix (n : ℕ) (hn : n ≤ 255) : toUint8 (clip255 (n : ℚ)) = n := by
  have h1 : ((n : ℚ)) ≤ 255 := by exact_mod_cast hn
  have h2 : (0 : ℚ) ≤ n := Nat.cast_nonneg n
  rw [clip255, min_eq_right h1, max_eq_right h2, toUint8]
  simp

/-- Truncation alone fixes genuine byte values. -/
theorem byte_fix_toUint8 (n : ℕ) : toUint8 (n : ℚ) = n := by
  rw [toUint8]; simp

/-- Replacing the pixel function by a function equal to the original
leaves the image unchanged. -/
theorem qimage_pix_congr (img : QImage) (f : ℕ → ℕ → Fin 3 → ℚ) (hf : f = img.pix) :
    ({ img with pix := f } : QImage) = img := by rw [hf]

/-- Film grain at intensity zero is the identity on byte images. -/
theorem filmGrain_zero (u : ℕ → ℕ → Fin 3 → ℚ) (img : QImage) (hv : validUint8 img) :
    filmGrain 0 u img = img := by
  unfold filmGrain
  refine qimage_pix_congr _ _ ?_
  funext x y c
  obtain ⟨n, hn, he⟩ := hv x y c
  rw [he]
  norm_num
  exact byte_fix n hn

/-- The vignette at intensity zero is the identity on byte images. -/
theorem vignette_zero (img : QImage) (hv : validUint8 img) : vignette 0 img = img := by
  unfold vignette
  refine qimage_pix_congr _ _ ?_
  funext x y c
  obtain ⟨n, hn, he⟩ := hv x y c
  rw [he]
  have hclip : clip01 (1 - 3 / 10 * 0 *
      (radiusSq img.width img.height x y / maxRadiusSq img.width img.height)) = 1 := by
    norm_num [clip01]
  rw [hclip, mul_one]
  exact byte_fix n hn

/-- The color-temperature shift at intensity zero is the identity on byte
images. -/
theorem colorTemperature_zero (img : QImage) (hv : validUint8 img) :
    colorTemperature 0 img = img := by
  unfold colorTemperature
  refine qimage_pix_congr _ _ ?_
  funext x y c
  obtain ⟨n, hn, he⟩ := hv x y c
  by_cases hc0 : c = 0
  · rw [if_pos hc0, he]
    norm_num
    exact byte_fix n hn
  · rw [if_neg hc0]
    by_cases hc2 : c = 2
    · rw [if_pos hc2, he]
      norm_num
      exact byte_fix n hn
    · rw [if_neg hc2, he]
      exact byte_fix_toUint8 n

/-- The sharpness enhancement at intensity zero (blend factor one) is the
identity on byte images, whatever the smoothing filter produces. -/
theorem sharpness_zero (smooth : QImage → QImage) (img : QImage) (hv : validUint8 img) :
    sharpness 0 smooth img = img := by
  unfold sharpness
  refine qimage_pix_congr _ _ ?_
  funext x y c
  obtain ⟨n, hn, he⟩ := hv x y c
  have harith : (smooth img).pix x y c + (1 + 3 / 20 * 0) *
      (img.pix x y c - (smooth img).pix x y c) = img.pix x y c := by ring
  rw [harith, he]
  exact byte_fix n hn

/-- C6: with the processor enabled and intensity zero, `process` is the
identity transform: every pixel of the output equals the corresponding
input pixel. -/
theorem C6_intensity_zero_identity (u : ℕ → ℕ → Fin 3 → ℚ) (smooth : QImage → QImage)
    (img : QImage) (hv : validUint8 img) : postProcess true 0 u smooth img = img := by
  unfold postProcess
  rw [if_pos rfl, filmGrain_zero u img hv, vignette_zero img hv,
    colorTemperature_zero img hv, sharpness_zero smooth img hv]

/-- Witness for C6: a concrete 2 x 2 byte image with zero noise and the
identity smoothing filter passes through unchanged. -/
theorem C6_intensity_zero_identity_witness :
    postProcess true 0 (fun _ _ _ => 0) id ⟨2, 2, fun _ _ _ => 7⟩ =
      (⟨2, 2, fun _ _ _ => 7⟩ : QImage) :=
  C6_intensity_zero_identity _ _ _ (fun _ _ _ => ⟨7, by norm_num, rfl⟩)

/-! ## Rate-limiter theorems -/

/-- Counterexample to the sliding-window claim: a limiter configured with
`max_per_minute = 2`, three back-to-back `acquire()` calls from
construction time 0, complete at times 0, 0 and 30 - all inside the
60-second window starting just before 0, so that window holds 3 > 2
completions. -/
theorem C7_sliding_window_counterexample :
    2 < completionsIn (rlRun 2 (rlInit 2 0) 0 [0, 0, 0]) (-(1 / 2)) ∧
      (∀ g ∈ ([0, 0, 0] : List ℚ), 0 ≤ g) := by
  have h1 : acquireStep 2 (rlInit 2 0) (0 + 0) = (⟨1, 0⟩, 0) := by
    simp [acquireStep, rlInit, min_def]
    norm_num
  have h2 : acquireStep 2 ⟨1, 0⟩ (0 + 0) = (⟨0, 0⟩, 0) := by
    simp [acquireStep, min_def]
  have h3 : acquireStep 2 ⟨0, 0⟩ (0 + 0) = (⟨0, 0⟩, 30) := by
    simp [acquireStep, min_def]
    norm_num
  have htrace : rlRun 2 (rlInit 2 0) 0 [0, 0, 0] = [0, 0, 30] := by
    rw [rlRun, h1]
    rw [rlRun, h2]
    rw [rlRun, h3]
    rw [rlRun]
  constructor
  · rw [htrace]
    simp only [completionsIn, List.filter_cons, List.filter_nil, decide_eq_true_eq]
    norm_num
  · intro g hg
    simp only [List.mem_cons, List.not_mem_nil, or_false] at hg
    rcases hg with rfl | rfl | rfl <;> norm_num

/-- Window count over a cons cell. -/
theorem completionsIn_cons (c : ℚ) (rest : List ℚ) (T : ℚ) :
    completionsIn (c :: rest) T =
      (if T < c ∧ c ≤ T + 60 then 1 else 0) + completionsIn rest T := by
  by_cases hc : T < c ∧ c ≤ T + 60 <;>
    simp [completionsIn, List.filter_cons, hc, Nat.add_comm]

/-- A sleeping call, written with the virtual balance. -/
theorem acquireStep_sleep_eq (C : ℕ) (s : RLState) (now : ℚ) (h : bhat C s now < 1) :
    acquireStep C s now =
      (⟨0, now⟩, now + (1 - bhat C s now) / ((C : ℚ) / 60)) := by
  rw [bhat] at h ⊢
  unfold acquireStep
  dsimp only
  rw [if_pos h]

/-- An immediate call, written with the virtual balance. -/
theorem acquireStep_go_eq (C : ℕ) (s : RLState) (now : ℚ) (h : ¬bhat C s now < 1) :
    acquireStep C s now = (⟨bhat C s now - 1, now⟩, now) := by
  rw [bhat] at h ⊢
  unfold acquireStep
  dsimp only
  rw [if_neg h]

/-- The virtual balance is nonnegative on reachable states. -/
theorem bhat_nonneg (C : ℕ) (s : RLState) (u : ℚ) (h0 : 0 ≤ s.tokens)
    (hlr : s.lastRefill ≤ u) : 0 ≤ bhat C s u := by
  rw [bhat]
  refine le_min (by positivity) ?_
  have : (0 : ℚ) ≤ (u - s.lastRefill) * ((C : ℚ) / 60) :=
    mul_nonneg (by linarith) (by positivity)
  linarith

/-- The virtual balance never exceeds the capacity. -/
theorem bhat_le_cap (C : ℕ) (s : RLState) (u : ℚ) : bhat C s u ≤ (C : ℚ) := by
  rw [bhat]; exact min_le_left _ _

/-- The virtual balance grows at most at the refill rate. -/
theorem bhat_growth (C : ℕ) (s : RLState) (u1 u2 : ℚ) (h : u1 ≤ u2) :
    bhat C s u2 ≤ bhat C s u1 + (u2 - u1) * ((C : ℚ) / 60) := by
  rw [bhat, bhat]
  have hρ : (0 : ℚ) ≤ (C : ℚ) / 60 := by positivity
  have hd : (0 : ℚ) ≤ (u2 - u1) * ((C : ℚ) / 60) := mul_nonneg (by linarith) hρ
  rcases le_total ((C : ℚ)) (s.tokens + (u1 - s.lastRefill) * ((C : ℚ) / 60)) with hcap | hcap
  · rw [min_eq_left hcap]
    have := min_le_left ((C : ℚ)) (s.tokens + (u2 - s.lastRefill) * ((C : ℚ) / 60))
    linarith
  · rw [min_eq_right hcap]
    have := min_le_right ((C : ℚ)) (s.tokens + (u2 - s.lastRefill) * ((C : ℚ) / 60))
    have hring : s.tokens + (u2 - s.lastRefill) * ((C : ℚ) / 60) =
        s.tokens + (u1 - s.lastRefill) * ((C : ℚ) / 60) + (u2 - u1) * ((C : ℚ) / 60) := by
      ring
    linarith

/-- The virtual balance is monotone in the token count. -/
theorem bhat_state_le (C : ℕ) (a1 a2 now u : ℚ) (h : a1 ≤ a2) :
    bhat C ⟨a1, now⟩ u ≤ bhat C ⟨a2, now⟩ u := by
  rw [bhat, bhat]
  dsimp only
  exact min_le_min le_rfl (by linarith)

/-- Refilling at an intermediate time does not raise the later balance. -/
theorem bhat_shift (C : ℕ) (s : RLState) (now u : ℚ) (h : now ≤ u) :
    bhat C ⟨bhat C s now, now⟩ u ≤ bhat C s u := by
  have hρ : (0 : ℚ) ≤ (C : ℚ) / 60 := by positivity
  rw [bhat, bhat, bhat]
  dsimp only
  rcases le_total ((C : ℚ)) (s.tokens + (now - s.lastRefill) * ((C : ℚ) / 60)) with hcap | hcap
  · rw [min_eq_left hcap]
    have hd : (0 : ℚ) ≤ (u - now) * ((C : ℚ) / 60) := mul_nonneg (by linarith) hρ
    have h1 : min ((C : ℚ)) ((C : ℚ) + (u - now) * ((C : ℚ) / 60)) = (C : ℚ) :=
      min_eq_left (by linarith)
    rw [h1]
    refine le_min le_rfl ?_
    have : (now - s.lastRefill) * ((C : ℚ) / 60) ≤ (u - s.lastRefill) * ((C : ℚ) / 60) :=
      mul_le_mul_of_nonneg_right (by linarith) hρ
    linarith
  · rw [min_eq_right hcap]
    have hring : s.tokens + (now - s.lastRefill) * ((C : ℚ) / 60) + (u - now) * ((C : ℚ) / 60) =
        s.tokens + (u - s.lastRefill) * ((C : ℚ) / 60) := by ring
    rw [hring]

/-- Completions never precede the call. -/
theorem acquireStep_comp_ge (C : ℕ) (hC : 1 ≤ C) (s : RLState) (now : ℚ) :
    now ≤ (acquireStep C s now).2 := by
  have hCq : (0 : ℚ) < C := by exact_mod_cast hC
  have hρ : (0 : ℚ) < (C : ℚ) / 60 := div_pos hCq (by norm_num)
  by_cases h : bhat C s now < 1
  · rw [acquireStep_sleep_eq C s now h]
    dsimp only
    have : 0 ≤ (1 - bhat C s now) / ((C : ℚ) / 60) := div_nonneg (by linarith) hρ.le
    linarith
  · rw [acquireStep_go_eq C s now h]


/-- Every completion of a trace is at or after the start time of the trace. -/
theorem rlRun_comp_ge (C : ℕ) (hC : 1 ≤ C) (gaps : List ℚ) :
    ∀ (s : RLState) (t : ℚ), (∀ g ∈ gaps, 0 ≤ g) → ∀ c ∈ rlRun C s t gaps, t ≤ c := by
  induction gaps with
  | nil => intro s t _ c hc; simp [rlRun] at hc
  | cons g gaps ih =>
    intro s t hg c hc
    have hg0 : 0 ≤ g := hg g (List.mem_cons_self g gaps)
    have hcomp : t + g ≤ (acquireStep C s (t + g)).2 := acquireStep_comp_ge C hC s (t + g)
    rw [rlRun] at hc
    rcases List.mem_cons.mp hc with rfl | hmem
    · linarith
    · have := ih (acquireStep C s (t + g)).1 (acquireStep C s (t + g)).2
        (fun x hx => hg x (List.mem_cons_of_mem g hx)) c hmem
      linarith

/-- A trace started after the window closes contributes nothing to it. -/
theorem completionsIn_zero_of_late (C : ℕ) (hC : 1 ≤ C) (T : ℚ) (gaps : List ℚ)
    (s : RLState) (t : ℚ) (hg : ∀ g ∈ gaps, 0 ≤ g) (ht : T + 60 < t) :
    completionsIn (rlRun C s t gaps) T = 0 := by
  rw [completionsIn, List.length_eq_zero]
  refine List.filter_eq_nil_iff.mpr ?_
  intro c hc
  have := rlRun_comp_ge C hC gaps s t hg c hc
  simp only [decide_eq_true_eq, not_and, not_le]
  intro _
  linarith

/-- The windowed completion bound, by induction over the trace: from a
reachable state the completions inside `(T, T + 60]` are at most the
refill the window can see at twice the nominal rate (each sleep interval
is double-credited by the unadjusted `last_refill`), plus the balance in
stock, plus a crossing slack. -/
theorem rlRun_window_le (C : ℕ) (hC : 1 ≤ C) (T : ℚ) :
    ∀ (gaps : List ℚ) (s : RLState) (t : ℚ),
      (∀ g ∈ gaps, 0 ≤ g) → 0 ≤ s.tokens → s.tokens ≤ (C : ℚ) → s.lastRefill ≤ t →
      t ≤ T + 60 →
      (completionsIn (rlRun C s t gaps) T : ℚ) ≤
        2 * ((C : ℚ) / 60) * (T + 60 - max t T) + bhat C s (max t T) +
          (if t < T then 2 else 0) := by
  have hCq : (0 : ℚ) < C := by exact_mod_cast hC
  have hρ : (0 : ℚ) < (C : ℚ) / 60 := div_pos hCq (by norm_num)
  intro gaps
  induction gaps with
  | nil =>
    intro s t hg h0 hcap hlr ht
    have hmax2 : max t T ≤ T + 60 := max_le ht (by linarith)
    have hmaxt : t ≤ max t T := le_max_left t T
    have h1 : 0 ≤ 2 * ((C : ℚ) / 60) * (T + 60 - max t T) :=
      mul_nonneg (by linarith) (by linarith)
    have h2 : 0 ≤ bhat C s (max t T) := bhat_nonneg C s _ h0 (le_trans hlr hmaxt)
    have h3 : (0 : ℚ) ≤ if t < T then 2 else 0 := by split_ifs <;> norm_num
    simp only [rlRun, completionsIn, List.filter_nil, List.length_nil, Nat.cast_zero]
    linarith
  | cons g gaps ih =>
    intro s t hg h0 hcap hlr ht
    have hg0 : 0 ≤ g := hg g (List.mem_cons_self g gaps)
    have hgrest : ∀ x ∈ gaps, 0 ≤ x := fun x hx => hg x (List.mem_cons_of_mem g hx)
    have htnow : t ≤ t + g := by linarith
    have hlrnow : s.lastRefill ≤ t + g := by linarith
    have hBnn : 0 ≤ bhat C s (t + g) := bhat_nonneg C s _ h0 hlrnow
    have hBcap : bhat C s (t + g) ≤ (C : ℚ) := bhat_le_cap C s _
    have hslackg : (0 : ℚ) ≤ if t < T then 2 else 0 := by split_ifs <;> norm_num
    rw [rlRun]
    by_cases hsleep : bhat C s (t + g) < 1
    · rw [acquireStep_sleep_eq C s (t + g) hsleep]
      dsimp only
      have hwpos : 0 < (1 - bhat C s (t + g)) / ((C : ℚ) / 60) :=
        div_pos (by linarith) hρ
      have hcompρ : (t + g + (1 - bhat C s (t + g)) / ((C : ℚ) / 60) - (t + g)) *
          ((C : ℚ) / 60) = 1 - bhat C s (t + g) := by
        rw [show t + g + (1 - bhat C s (t + g)) / ((C : ℚ) / 60) - (t + g) =
          (1 - bhat C s (t + g)) / ((C : ℚ) / 60) from by ring]
        exact div_mul_cancel₀ _ (ne_of_gt hρ)
      by_cases hlate : T + 60 < t + g + (1 - bhat C s (t + g)) / ((C : ℚ) / 60)
      · have htail : completionsIn (rlRun C ⟨0, t + g⟩
            (t + g + (1 - bhat C s (t + g)) / ((C : ℚ) / 60)) gaps) T = 0 :=
          completionsIn_zero_of_late C hC T gaps _ _ hgrest hlate
        rw [completionsIn_cons, htail, if_neg (fun hand => absurd hand.2 (not_le.mpr hlate))]
        have hmax2 : max t T ≤ T + 60 := max_le ht (by linarith)
        have hmaxt : t ≤ max t T := le_max_left t T
        have h1 : 0 ≤ 2 * ((C : ℚ) / 60) * (T + 60 - max t T) :=
          mul_nonneg (by linarith) (by linarith)
        have h2 : 0 ≤ bhat C s (max t T) := bhat_nonneg C s _ h0 (le_trans hlr hmaxt)
        push_cast
        linarith
      · push_neg at hlate
        have hIH := ih ⟨0, t + g⟩ (t + g + (1 - bhat C s (t + g)) / ((C : ℚ) / 60)) hgrest
          le_rfl hCq.le (by dsimp only; linarith) hlate
        rw [completionsIn_cons]
        push_cast
        have hb2 : bhat C ⟨0, t + g⟩ (t + g + (1 - bhat C s (t + g)) / ((C : ℚ) / 60)) ≤
            1 - bhat C s (t + g) := by
          rw [bhat]
          dsimp only
          refine le_trans (min_le_right _ _) ?_
          rw [zero_add, hcompρ]
        by_cases hhead : T < t + g + (1 - bhat C s (t + g)) / ((C : ℚ) / 60)
        · rw [if_pos ⟨hhead, hlate⟩]
          rw [max_eq_left (le_of_lt hhead), if_neg (not_lt.mpr (le_of_lt hhead))] at hIH
          by_cases hnT : T ≤ t + g
          · -- the call happens inside or after the window start
            have hm_le_now : max t T ≤ t + g := max_le htnow hnT
            have hgrow := bhat_growth C s (max t T) (t + g) hm_le_now
            have hp1 : 0 ≤ (t + g - max t T) * ((C : ℚ) / 60) :=
              mul_nonneg (by linarith) hρ.le
            ring_nf at hIH hb2 hgrow hp1 hcompρ ⊢
            linarith
          · -- a sleeper crossing the window start: spend the slack
            push_neg at hnT
            have hmT : max t T = T := max_eq_right (by linarith)
            have htltT : t < T := by linarith
            rw [hmT, if_pos htltT]
            have hblr : bhat C s T ≤ (C : ℚ) := bhat_le_cap C s T
            have hbTnn : 0 ≤ bhat C s T := bhat_nonneg C s T h0 (by linarith)
            have hp2 : 0 ≤ (t + g + (1 - bhat C s (t + g)) / ((C : ℚ) / 60) - T) *
                ((C : ℚ) / 60) := mul_nonneg (by linarith) hρ.le
            ring_nf at hIH hb2 hp2 hcompρ ⊢
            linarith
        · -- the sleeper completes before the window opens
          push_neg at hhead
          rw [if_neg (fun hand => absurd hand.1 (not_lt.mpr hhead))]
          have hnowT : t + g < T := by
            have := hwpos
            linarith
          have hmT : max t T = T := max_eq_right (by linarith)
          rw [max_eq_right hhead] at hIH
          have hb3 : bhat C ⟨0, t + g⟩ T ≤ bhat C s T := by
            refine le_trans (bhat_state_le C 0 (bhat C s (t + g)) (t + g) T hBnn) ?_
            exact bhat_shift C s (t + g) T (by linarith)
          have hslack2 : (if t + g + (1 - bhat C s (t + g)) / ((C : ℚ) / 60) < T then
              (2 : ℚ) else 0) ≤ 2 := by split_ifs <;> norm_num
          rw [hmT, if_pos (by linarith : t < T)]
          ring_nf at hIH hb3 hslack2 ⊢
          linarith
    · rw [acquireStep_go_eq C s (t + g) hsleep]
      dsimp only
      have hB1 : 1 ≤ bhat C s (t + g) := not_lt.mp hsleep
      by_cases hlate : T + 60 < t + g
      · have htail : completionsIn
            (rlRun C ⟨bhat C s (t + g) - 1, t + g⟩ (t + g) gaps) T = 0 :=
          completionsIn_zero_of_late C hC T gaps _ _ hgrest hlate
        rw [completionsIn_cons, htail, if_neg (fun hand => absurd hand.2 (not_le.mpr hlate))]
        have hmax2 : max t T ≤ T + 60 := max_le ht (by linarith)
        have hmaxt : t ≤ max t T := le_max_left t T
        have h1 : 0 ≤ 2 * ((C : ℚ) / 60) * (T + 60 - max t T) :=
          mul_nonneg (by linarith) (by linarith)
        have h2 : 0 ≤ bhat C s (max t T) := bhat_nonneg C s _ h0 (le_trans hlr hmaxt)
        push_cast
        linarith
      · push_neg at hlate
        have hIH := ih ⟨bhat C s (t + g) - 1, t + g⟩ (t + g) hgrest
          (by dsimp only; linarith) (by dsimp only; linarith) le_rfl hlate
        rw [completionsIn_cons]
        push_cast
        by_cases hhead : T < t + g
        · rw [if_pos ⟨hhead, hlate⟩]
          rw [max_eq_left (le_of_lt hhead), if_neg (not_lt.mpr (le_of_lt hhead))] at hIH
          have hbeq : bhat C ⟨bhat C s (t + g) - 1, t + g⟩ (t + g) =
              bhat C s (t + g) - 1 := by
            rw [bhat]
            dsimp only
            rw [show (t + g - (t + g)) * ((C : ℚ) / 60) = 0 from by ring, add_zero]
            exact min_eq_right (by linarith)
          rw [hbeq] at hIH
          have hm_le_now : max t T ≤ t + g := max_le htnow (le_of_lt hhead)
          have hgrow := bhat_growth C s (max t T) (t + g) hm_le_now
          have hp1 : 0 ≤ (t + g - max t T) * ((C : ℚ) / 60) :=
            mul_nonneg (by linarith) hρ.le
          ring_nf at hIH hgrow hp1 ⊢
          linarith
        · push_neg at hhead
          rw [if_neg (fun hand => absurd hand.1 (not_lt.mpr hhead))]
          rw [max_eq_right hhead] at hIH
          have hmT : max t T = T := max_eq_right (by linarith)
          have hb3 : bhat C ⟨bhat C s (t + g) - 1, t + g⟩ T ≤ bhat C s T := by
            refine le_trans
              (bhat_state_le C (bhat C s (t + g) - 1) (bhat C s (t + g)) (t + g) T
                (by linarith)) ?_
            exact bhat_shift C s (t + g) T hhead
          have hslack2 : (if t + g < T then (2 : ℚ) else 0) ≤ if t < T then 2 else 0 := by
            split_ifs with h1 h2
            · norm_num
            · exact absurd (lt_of_le_of_lt htnow h1) h2
            · norm_num
            · norm_num
          rw [hmT]
          ring_nf at hIH hb3 hslack2 ⊢
          linarith

/-- C7 as amended: for a limiter with capacity at least one, under any
sequential schedule with a controllable clock, no 60-second sliding window
`(T, T + 60]` contains more than `3 * max_per_minute + 2` completed
`acquire()` calls (the initial full bucket, the refill the window sees,
and the double-credited sleep intervals each contribute at most
`max_per_minute`, plus the crossing slack). -/
theorem C7_sliding_window_bound (C : ℕ) (hC : 1 ≤ C) (t0 T : ℚ) (gaps : List ℚ)
    (hg : ∀ g ∈ gaps, 0 ≤ g) :
    completionsIn (rlRun C (rlInit C t0) t0 gaps) T ≤ 3 * C + 2 := by
  have hCq : (0 : ℚ) < C := by exact_mod_cast hC
  by_cases ht : t0 ≤ T + 60
  · have h := rlRun_window_le C hC T gaps (rlInit C t0) t0 hg
      (by dsimp only [rlInit]; positivity) le_rfl le_rfl ht
    have hmax1 : T ≤ max t0 T := le_max_right _ _
    have hmax2 : max t0 T ≤ T + 60 := max_le ht (by linarith)
    have hb : bhat C (rlInit C t0) (max t0 T) ≤ (C : ℚ) := bhat_le_cap _ _ _
    have hslack : (if t0 < T then (2 : ℚ) else 0) ≤ 2 := by split_ifs <;> norm_num
    have hterm : 2 * ((C : ℚ) / 60) * (T + 60 - max t0 T) ≤ 2 * (C : ℚ) := by
      have h1 : T + 60 - max t0 T ≤ 60 := by linarith
      calc 2 * ((C : ℚ) / 60) * (T + 60 - max t0 T) ≤ 2 * ((C : ℚ) / 60) * 60 := by
            apply mul_le_mul_of_nonneg_left h1 (by positivity)
        _ = 2 * C := by ring
    have hq : (completionsIn (rlRun C (rlInit C t0) t0 gaps) T : ℚ) ≤ 3 * C + 2 := by
      linarith
    exact_mod_cast hq
  · push_neg at ht
    rw [completionsIn_zero_of_late C hC T gaps _ t0 hg ht]
    exact Nat.zero_le _

/-- Witness for the amended C7 at the configuration of the counterexample: the
three back-to-back calls on a limiter of capacity 2 complete 3 times in
the window, within the amended bound of 8. -/
theorem C7_sliding_window_bound_witness :
    completionsIn (rlRun 2 (rlInit 2 0) 0 [0, 0, 0]) (-(1 / 2)) ≤ 3 * 2 + 2 :=
  C7_sliding_window_bound 2 (by norm_num) 0 (-(1 / 2)) [0, 0, 0] (by
    intro g hg
    simp only [List.mem_cons, List.not_mem_nil, or_false] at hg
    rcases hg with rfl | rfl | rfl <;> norm_num)

end Prism
